import Mathlib

/-!
# Verification of the HEX dashboard's client-side data pipelines

This development gives a shallow embedding, in Lean, of the data-processing
logic of the dashboard repository:

* the "flush transactions" CSV aggregation pipeline
  (`FlushTransactions` and `processTransaction` in `NavBar.tsx`),
* the client-side stake filtering, ROI computation and sort-toggle handlers
  of the stakes page, and
* the lobby component's address normalization.

Modelling conventions:

* JS strings are Lean `String`s (a structure wrapping `List Char`); all string
  operations used by the code (`split`, `trim`, `toLowerCase`, `replace` of a
  fixed character or pattern) are defined structurally on the underlying
  character list.  Where JS sorts an array of strings lexicographically we sort
  the underlying character lists with the lexicographic order on `List Char`
  (identical to the JS UTF-16 code-unit order on the BMP strings involved).
* JS numbers are exact rationals `ℚ`.  `NaN` is represented by `none` in
  `Option ℚ` results of the parsing functions; IEEE infinities (which only
  arise here from a division by zero) are represented explicitly by the
  `JSVal` type where the claim is about non-finite results.
* `parseFloat` / `parseInt` are modelled faithfully for finite results:
  leading whitespace, an optional sign, the longest valid numeric prefix
  (decimal digits, an optional fraction, an optional exponent for
  `parseFloat`; decimal or `0x`-hexadecimal digits for `parseInt`), `none`
  when no digit is consumed.  The literal `Infinity`, which has no rational
  value, is out of the rational model and parses as `none`.
* `new Date(s)` is modelled for ISO calendar-date strings `YYYY-MM-DD`
  (the only input format with fully specified ECMA semantics, and the format
  used by the date inputs and CSV exports); any other string yields an
  invalid date (`none`).  `Date.prototype.toISOString().split('T')[0]` is
  modelled by converting the epoch-millisecond value back to a civil date.
  An invalid date makes `toISOString` throw, which aborts the whole CSV
  pass (the surrounding promise `catch` discards all accumulated state), so
  the pipeline is modelled as `Option`-valued and returns `none` in that case.
-/

set_option maxRecDepth 4000

namespace OA

/-! ## Character-level models of the JS string operations -/

/-- ASCII lower-casing of one character, the effect of
`String.prototype.toLowerCase` on the ASCII strings handled here. -/
def lowerChar (c : Char) : Char :=
  if 65 ≤ c.toNat ∧ c.toNat ≤ 90 then Char.ofNat (c.toNat + 32) else c

/-- Model of `s.toLowerCase()`. -/
def jsToLower (s : String) : String := ⟨s.data.map lowerChar⟩

/-- Model of `s.trim()`: drop leading and trailing whitespace. -/
def trimChars (l : List Char) : List Char :=
  ((l.dropWhile Char.isWhitespace).reverse.dropWhile Char.isWhitespace).reverse

/-- Model of `s.trim()` on strings. -/
def jsTrim (s : String) : String := ⟨trimChars s.data⟩

/-- Model of `s.replace(/"/g, '')`: remove every double-quote character. -/
def stripQuotes (s : String) : String := ⟨s.data.filter (fun c => c ≠ '"')⟩

/-- Model of `line.replace(/^\d+\|/, '')`: strip one leading run of digits
followed by a pipe, if present. -/
def cleanLine (line : String) : String :=
  let ds := line.data.takeWhile Char.isDigit
  match line.data.drop ds.length with
  | '|' :: rest => if ds.isEmpty then line else ⟨rest⟩
  | _ => line

/-- Auxiliary splitter: `acc` holds the current field, reversed. -/
def splitOnCharAux (sep : Char) : List Char → List Char → List String
  | [], acc => [⟨acc.reverse⟩]
  | c :: rest, acc =>
    if c = sep then ⟨acc.reverse⟩ :: splitOnCharAux sep rest []
    else splitOnCharAux sep rest (c :: acc)

/-- Model of `s.split(sep)` for a one-character separator (`','` and `'\n'`
are the only separators the code uses). -/
def splitOnChar (sep : Char) (s : String) : List String :=
  splitOnCharAux sep s.data []

/-- First-match lookup in an association list, the model of a JS object used
as a string-keyed dictionary (keys are unique, so first match is the match). -/
def lookupKV {α β : Type} [DecidableEq α] : List (α × β) → α → Option β
  | [], _ => none
  | p :: rest, k => if p.1 = k then some p.2 else lookupKV rest k

/-! ## Numeric parsing -/

/-- Value of a list of decimal digit characters. -/
def digitsToNat (l : List Char) : ℕ :=
  l.foldl (fun a c => a * 10 + (c.toNat - 48)) 0

/-- Value of a list of hexadecimal digit characters. -/
def hexDigitsToNat (l : List Char) : ℕ :=
  l.foldl (fun a c =>
    a * 16 + (if 97 ≤ (lowerChar c).toNat then (lowerChar c).toNat - 87
              else c.toNat - 48)) 0

/-- Model of `parseFloat`: `none` is `NaN`.  Longest valid numeric prefix:
whitespace, optional sign, digits with optional fraction, optional exponent
(the exponent is only consumed when at least one exponent digit follows). -/
def jsParseFloat (s : String) : Option ℚ :=
  let cs := s.data.dropWhile Char.isWhitespace
  let (sgn, cs) : ℚ × List Char :=
    match cs with
    | '-' :: t => (-1, t)
    | '+' :: t => (1, t)
    | _ => (1, cs)
  let ip := cs.takeWhile Char.isDigit
  let cs := cs.dropWhile Char.isDigit
  let (fp, cs) : List Char × List Char :=
    match cs with
    | '.' :: t => (t.takeWhile Char.isDigit, t.dropWhile Char.isDigit)
    | _ => ([], cs)
  if ip.isEmpty ∧ fp.isEmpty then none
  else
    let mant : ℚ := (digitsToNat ip : ℚ) + (digitsToNat fp : ℚ) / (10 : ℚ) ^ fp.length
    let e : ℤ :=
      match cs with
      | c :: t =>
        if c = 'e' ∨ c = 'E' then
          let (es, t') : ℤ × List Char :=
            match t with
            | '-' :: u => (-1, u)
            | '+' :: u => (1, u)
            | _ => (1, t)
          let ed := t'.takeWhile Char.isDigit
          if ed.isEmpty then 0 else es * digitsToNat ed
        else 0
      | [] => 0
    some (sgn * mant * (10 : ℚ) ^ e)

/-- Model of `parseInt` with no radix argument: `none` is `NaN`.  Whitespace,
optional sign, then either a `0x`/`0X` hexadecimal literal or decimal digits. -/
def jsParseInt (s : String) : Option ℤ :=
  let cs := s.data.dropWhile Char.isWhitespace
  let (sgn, cs) : ℤ × List Char :=
    match cs with
    | '-' :: t => (-1, t)
    | '+' :: t => (1, t)
    | _ => (1, cs)
  match cs with
  | '0' :: x :: t =>
    if x = 'x' ∨ x = 'X' then
      let hd := t.takeWhile (fun c => c.isDigit ∨ (97 ≤ (lowerChar c).toNat ∧ (lowerChar c).toNat ≤ 102))
      if hd.isEmpty then none else some (sgn * hexDigitsToNat hd)
    else
      let ds := ('0' :: x :: t).takeWhile Char.isDigit
      some (sgn * digitsToNat ds)
  | cs' =>
    let ds := cs'.takeWhile Char.isDigit
    if ds.isEmpty then none else some (sgn * digitsToNat ds)

/-- Model of the JS `x || y` fallback on a number `x`: `NaN` (`none`) and `0`
are falsy, any other number is kept. -/
def jsOrNum (x : Option ℚ) (y : ℚ) : ℚ :=
  match x with
  | some q => if q = 0 then y else q
  | none => y

/-! ## Dates

Proleptic-Gregorian conversions between civil dates and days since the Unix
epoch (the standard era-based algorithms), used to model `new Date(s)` for
ISO calendar-date strings and `toISOString().split('T')[0]`. -/

/-- Gregorian leap-year test. -/
def isLeapYear (y : ℤ) : Bool :=
  (y % 4 = 0 ∧ y % 100 ≠ 0) ∨ y % 400 = 0

/-- Number of days in a month. -/
def daysInMonth (y m : ℤ) : ℤ :=
  if m = 2 then (if isLeapYear y then 29 else 28)
  else if m = 4 ∨ m = 6 ∨ m = 9 ∨ m = 11 then 30
  else 31

/-- Days since 1970-01-01 of the civil date `y-m-d`. -/
def daysFromCivil (y m d : ℤ) : ℤ :=
  let y' := if m ≤ 2 then y - 1 else y
  let era := Int.fdiv y' 400
  let yoe := y' - era * 400
  let mp := if m ≤ 2 then m + 9 else m - 3
  let doy := Int.fdiv (153 * mp + 2) 5 + d - 1
  let doe := yoe * 365 + Int.fdiv yoe 4 - Int.fdiv yoe 100 + doy
  era * 146097 + doe - 719468

/-- Civil date `(y, m, d)` of a count of days since 1970-01-01. -/
def civilFromDays (z0 : ℤ) : ℤ × ℤ × ℤ :=
  let z := z0 + 719468
  let era := Int.fdiv z 146097
  let doe := z - era * 146097
  let yoe := Int.fdiv (doe - Int.fdiv doe 1460 + Int.fdiv doe 36524 - Int.fdiv doe 146096) 365
  let y := yoe + era * 400
  let doy := doe - (365 * yoe + Int.fdiv yoe 4 - Int.fdiv yoe 100)
  let mp := Int.fdiv (5 * doy + 2) 153
  let d := doy - Int.fdiv (153 * mp + 2) 5 + 1
  let m := if mp < 10 then mp + 3 else mp - 9
  (if m ≤ 2 then y + 1 else y, m, d)

/-- Two-digit zero-padded decimal rendering. -/
def pad2 (n : ℤ) : String := if n < 10 then "0" ++ toString n else toString n

/-- Four-digit zero-padded decimal rendering. -/
def pad4 (n : ℤ) : String :=
  if n < 10 then "000" ++ toString n
  else if n < 100 then "00" ++ toString n
  else if n < 1000 then "0" ++ toString n
  else toString n

/-- Model of `timestamp.toISOString().split('T')[0]` on a valid date with
epoch-millisecond value `ms`: the ISO calendar date of the containing UTC
day, as a character list (the form in which the code sorts these keys). -/
def isoDateKey (ms : ℤ) : List Char :=
  let c := civilFromDays (Int.fdiv ms 86400000)
  (pad4 c.1 ++ "-" ++ pad2 c.2.1 ++ "-" ++ pad2 c.2.2).data

/-- Model of `new Date(s).getTime()` for ISO calendar-date strings
`YYYY-MM-DD` (UTC midnight); `none` is an invalid date (`NaN` time value). -/
def jsDateMs (s : String) : Option ℤ :=
  match s.data with
  | [y1, y2, y3, y4, s1, m1, m2, s2, d1, d2] =>
    if s1 = '-' ∧ s2 = '-' ∧
       y1.isDigit ∧ y2.isDigit ∧ y3.isDigit ∧ y4.isDigit ∧
       m1.isDigit ∧ m2.isDigit ∧ d1.isDigit ∧ d2.isDigit then
      let y : ℤ := digitsToNat [y1, y2, y3, y4]
      let m : ℤ := digitsToNat [m1, m2]
      let d : ℤ := digitsToNat [d1, d2]
      if 1 ≤ m ∧ m ≤ 12 ∧ 1 ≤ d ∧ d ≤ daysInMonth y m then
        some (daysFromCivil y m d * 86400000)
      else none
    else none
  | _ => none

/-! ## The flush-transactions aggregation pipeline (`NavBar.tsx`)

The CSV text is split on newlines, the header dropped, and each line folded
through the body of the `forEach` callback.  The accumulated state is the
`transactionSummary` object (an insertion-ordered map from address or hash to
a `Transaction`) together with the `dailyAmounts` object (insertion-ordered
map from ISO date key to a running amount).  A row whose timestamp is an
invalid date makes `toISOString` throw inside the callback; the promise chain
catches the exception and never publishes any state, which the model renders
as the whole pass returning `none`. -/

/-- The `Transaction` record of `NavBar.tsx`.  Dates are epoch-millisecond
time values. -/
structure Txn where
  toAddr : String
  hash : Option String
  amount : ℚ
  count : ℕ
  firstDate : ℤ
  lastDate : ℤ
deriving DecidableEq

/-- The mutable aggregation state: `transactionSummary` and `dailyAmounts`,
both insertion-ordered key/value lists (JS objects with string keys). -/
structure AggState where
  summary : List (String × Txn)
  daily : List (List Char × ℚ)
deriving DecidableEq

/-- `summary[key] = v`: overwrite in place if the key exists, else append. -/
def setSummary (m : List (String × Txn)) (k : String) (v : Txn) :
    List (String × Txn) :=
  if (lookupKV m k).isSome then m.map (fun p => if p.1 = k then (k, v) else p)
  else m ++ [(k, v)]

/-- `dailyAmounts[dateKey] = (dailyAmounts[dateKey] || 0) + amount`. -/
def addDaily (d : List (List Char × ℚ)) (k : List Char) (a : ℚ) :
    List (List Char × ℚ) :=
  match lookupKV d k with
  | some v => d.map (fun p => if p.1 = k then (k, v + a) else p)
  | none => d ++ [(k, a)]

/-- The fixed flush target address (lower-cased, as the code does). -/
def TARGET_ADDRESS : String := jsToLower "0xDEC9f2793e3c17cd26eeFb21C4762fA5128E0399"

/-- The `processTransaction` helper of `NavBar.tsx`, for a row whose
timestamp is a valid date with time value `ts`. -/
def processTransaction (fromA toA : String) (amount : ℚ) (ts : ℤ)
    (st : AggState) : AggState :=
  let addressKey := if fromA = TARGET_ADDRESS then toA else fromA
  let cur : Txn :=
    match lookupKV st.summary addressKey with
    | some t => t
    | none => ⟨addressKey, none, 0, 0, ts, ts⟩
  let upd : Txn :=
    { cur with amount := cur.amount + amount, count := cur.count + 1,
               firstDate := min cur.firstDate ts, lastDate := max cur.lastDate ts }
  { summary := setSummary st.summary addressKey upd,
    daily := addDaily st.daily (isoDateKey ts) amount }

/-- The transaction-type selector. -/
inductive TxType | send | receive | internal
deriving DecidableEq

/-- The amount a send/receive row carries, from candidate columns 7 and 8:
`parseFloat(columns[7]) || parseFloat(columns[8]) || 0`. -/
def rowAmount (c7 c8 : String) : ℚ :=
  jsOrNum (jsParseFloat c7) (jsOrNum (jsParseFloat c8) 0)

/-- One iteration of the `lines.forEach` callback.  `none` means the callback
threw (`toISOString` on an invalid date), which aborts the whole pass. -/
def flushStep (ty : TxType) (st : AggState) (line : String) : Option AggState :=
  if jsTrim line = "" then some st
  else if ty = .internal then
    let columns := splitOnChar ',' (cleanLine line)
    if columns.length < 11 then some st
    else
      let hash := stripQuotes (columns.getD 0 "")
      let amount := jsOrNum (jsParseFloat (stripQuotes (columns.getD 10 ""))) 0
      match jsDateMs (stripQuotes (columns.getD 3 "")) with
      | none => none
      | some ts =>
        some { summary := setSummary st.summary hash ⟨"", some hash, amount, 1, ts, ts⟩,
               daily := addDaily st.daily (isoDateKey ts) amount }
  else
    let columns := splitOnChar ',' (cleanLine line)
    if columns.length < 15 then some st
    else
      let fromA := jsToLower (stripQuotes (columns.getD 4 ""))
      let toA := jsToLower (stripQuotes (columns.getD 5 ""))
      let amount := rowAmount (stripQuotes (columns.getD 7 ""))
                      (stripQuotes (columns.getD 8 ""))
      if ty = .send ∧ fromA = TARGET_ADDRESS ∧ amount > 0 then
        match jsDateMs (stripQuotes (columns.getD 3 "")) with
        | none => none
        | some ts => some (processTransaction fromA toA amount ts st)
      else if ty = .receive ∧ toA = TARGET_ADDRESS ∧ amount > 0 then
        match jsDateMs (stripQuotes (columns.getD 3 "")) with
        | none => none
        | some ts => some (processTransaction fromA toA amount ts st)
      else some st

/-- Fold the step over the data lines, aborting on a thrown exception. -/
def flushRun (ty : TxType) (st : AggState) : List String → Option AggState
  | [] => some st
  | l :: ls =>
    match flushStep ty st l with
    | none => none
    | some st' => flushRun ty st' ls

/-- The whole parsing and aggregation pass over a list of data lines. -/
def flushLines (ty : TxType) (lines : List String) : Option AggState :=
  flushRun ty ⟨[], []⟩ lines

/-- The whole pass over the fetched CSV text: split on newlines and drop the
header line. -/
def flushAgg (ty : TxType) (csv : String) : Option AggState :=
  flushLines ty ((splitOnChar '\n' csv).drop 1)

/-- One point of the chart series. -/
structure DailyTotal where
  date : List Char
  amount : ℚ
  cumulative : ℚ
deriving DecidableEq

/-- The `sortedDates.map` loop: running cumulative sum, starting from `c`. -/
def cumFrom (c : ℚ) : List (List Char × ℚ) → List DailyTotal
  | [] => []
  | (d, a) :: rest => ⟨d, a, c + a⟩ :: cumFrom (c + a) rest

/-- `Object.keys(dailyAmounts).sort()` followed by the cumulative map. -/
def mkDailyTotals (daily : List (List Char × ℚ)) : List DailyTotal :=
  cumFrom 0 (((daily.map (fun p => p.1)).insertionSort (· ≤ ·)).map
    (fun k => (k, (lookupKV daily k).getD 0)))

/-- The chart series produced by a pass over the CSV text. -/
def flushDailyTotals (ty : TxType) (csv : String) : Option (List DailyTotal) :=
  (flushAgg ty csv).map (fun st => mkDailyTotals st.daily)

/-- The grouped summary produced by a pass over the CSV text. -/
def flushSummary (ty : TxType) (csv : String) : Option (List (String × Txn)) :=
  (flushAgg ty csv).map (fun st => st.summary)

/-! ## The stakes page (`StakesPage`)

The `StakeStart` / `StakeEnd` records arrive from the subgraph with all
numeric fields as strings, exactly as in `types/hex.ts`. -/

/-- The `StakeEnd` record. -/
structure StakeEnd where
  id : String
  stakerAddr : String
  stakeId : String
  payout : String
  stakedHearts : String
  stakedShares : String
  timestamp : String
  penalty : String
  servedDays : String
  daysLate : String
  daysEarly : String
  transactionHash : String
deriving DecidableEq

/-- The `StakeStart` record, optionally owning a `StakeEnd`. -/
structure StakeStart where
  id : String
  stakerAddr : String
  stakeId : String
  stakedHearts : String
  stakedShares : String
  stakeTShares : String
  stakedDays : String
  startDay : String
  endDay : String
  timestamp : String
  isAutoStake : Bool
  transactionHash : String
  stakeEnd : Option StakeEnd
deriving DecidableEq

/-- `HEX_LAUNCH_TIMESTAMP` (December 3, 2019 UTC, in seconds). -/
def HEX_LAUNCH_TIMESTAMP : ℤ := 1575331200

/-- `SECONDS_PER_DAY`. -/
def SECONDS_PER_DAY : ℤ := 86400

/-- The status filter of the stakes page. -/
inductive StatusFilter | all | active | ended
deriving DecidableEq

/-- A `{from, to}` pair of date-input strings. -/
structure DateRange where
  fromS : String
  toS : String
deriving DecidableEq

/-- `Math.floor(new Date(s).getTime() / 1000)`; `none` is `NaN`. -/
def dateEpochSeconds (s : String) : Option ℤ :=
  (jsDateMs s).map (fun ms => Int.fdiv ms 1000)

/-- JS `<` between two numbers that may be `NaN`: any comparison with `NaN`
is false. -/
def jsLt (a b : Option ℤ) : Bool :=
  match a, b with
  | some x, some y => x < y
  | _, _ => false

/-- JS `>` between two numbers that may be `NaN`. -/
def jsGt (a b : Option ℤ) : Bool :=
  match a, b with
  | some x, some y => y < x
  | _, _ => false

/-- `NaN`-propagating addition. -/
def oAdd (a b : Option ℤ) : Option ℤ :=
  match a, b with
  | some x, some y => some (x + y)
  | _, _ => none

/-- Model of `haystack.includes(needle)`: substring containment. -/
def containsSub (haystack needle : String) : Bool :=
  decide (needle.data <:+: haystack.data)

/-- The `filteredStakes` predicate of the stakes page: status, address
substring, start-date range and derived expected-end-date range must all
pass. -/
def stakePasses (statusFilter : StatusFilter) (searchAddress : String)
    (startDateRange endDateRange : DateRange) (stake : StakeStart) : Bool :=
  if statusFilter = .active ∧ stake.stakeEnd.isSome then false
  else if statusFilter = .ended ∧ stake.stakeEnd.isNone then false
  else if jsTrim searchAddress ≠ "" ∧
          ¬ containsSub (jsToLower stake.stakerAddr) (jsToLower searchAddress) then false
  else
    let startTimestamp := jsParseInt stake.timestamp
    let startFrom := dateEpochSeconds startDateRange.fromS
    let startTo := dateEpochSeconds startDateRange.toS
    if jsLt startTimestamp startFrom ∨ jsGt startTimestamp startTo then false
    else
      let endTimestamp :=
        oAdd (some HEX_LAUNCH_TIMESTAMP)
          ((jsParseInt stake.endDay).map (fun n => n * SECONDS_PER_DAY))
      let endFrom := dateEpochSeconds endDateRange.fromS
      let endTo := dateEpochSeconds endDateRange.toS
      if jsLt endTimestamp endFrom ∨ jsGt endTimestamp endTo then false
      else true

/-! ### ROI and division by zero

The ROI comparator and the ROI table cell both divide by
`parseFloat(stake.stakedHearts)` with no zero guard.  `JSVal` records the
IEEE outcome of that division exactly: a finite number, an infinity, or
`NaN`. -/

/-- A JS number that may be non-finite. -/
inductive JSVal
  | nan : JSVal
  | inf : Bool → JSVal
  | num : ℚ → JSVal
deriving DecidableEq

/-- `NaN`-propagating addition on parsed values. -/
def oAddQ (a b : Option ℚ) : Option ℚ :=
  match a, b with
  | some x, some y => some (x + y)
  | _, _ => none

/-- `NaN`-propagating subtraction on parsed values. -/
def oSubQ (a b : Option ℚ) : Option ℚ :=
  match a, b with
  | some x, some y => some (x - y)
  | _, _ => none

/-- JS division of two possibly-`NaN` numbers: `x / 0` is `±Infinity` for
`x ≠ 0` and `NaN` for `x = 0`; `NaN` propagates. -/
def jsDivQ (a b : Option ℚ) : JSVal :=
  match a, b with
  | some x, some y =>
    if y = 0 then (if x = 0 then .nan else .inf (x < 0)) else .num (x / y)
  | _, _ => .nan

/-- Multiplication of a JS value by a rational constant. -/
def jsMulC (v : JSVal) (c : ℚ) : JSVal :=
  match v with
  | .nan => .nan
  | .num q => .num (q * c)
  | .inf b => if c = 0 then .nan else .inf (if c < 0 then !b else b)

/-- Finiteness of a JS value. -/
def isFiniteJS : JSVal → Bool
  | .num _ => true
  | _ => false

/-- The per-stake value compared by the `roi` case of `sortedStakes`:
`stakeEnd ? ((payout + stakedHearts - stakedHearts) / stakedHearts) : 0`. -/
def roiSortValue (s : StakeStart) : JSVal :=
  let staked := jsParseFloat s.stakedHearts
  match s.stakeEnd with
  | none => .num 0
  | some e => jsDivQ (oSubQ (oAddQ (jsParseFloat e.payout) staked) staked) staked

/-- The numeric value rendered (before `toFixed`) in the ROI table cell when
the stake has ended:
`((payout + stakedHearts - stakedHearts) / stakedHearts) * 100`. -/
def roiDisplayValue (s : StakeStart) (e : StakeEnd) : JSVal :=
  let staked := jsParseFloat s.stakedHearts
  jsMulC (jsDivQ (oSubQ (oAddQ (jsParseFloat e.payout) staked) staked) staked) 100

/-! ### Sort toggling -/

/-- Sort direction, shared by both tables. -/
inductive SortDirection | asc | desc
deriving DecidableEq

/-- Flip a direction. -/
def flipDir : SortDirection → SortDirection
  | .asc => .desc
  | .desc => .asc

/-- The twelve sortable columns of the stakes table. -/
inductive SortField
  | start | expEnd | days | hexStaked | tShares | stakeEnded
  | yield | minted | roi | daysServed | earlyLate | penalty
deriving DecidableEq

/-- The `(sortField, sortDirection)` state of the stakes table. -/
structure StakeSortState where
  sortField : SortField
  sortDirection : SortDirection
deriving DecidableEq

/-- The `handleSort` handler of the stakes page: clicking the active field
flips the direction, clicking another field selects it descending. -/
def handleSort (field : SortField) (s : StakeSortState) : StakeSortState :=
  if s.sortField = field then { s with sortDirection := flipDir s.sortDirection }
  else { sortField := field, sortDirection := .desc }

/-- The three sortable columns of the flush-transactions table. -/
inductive FlushSortField | amount | count | date
deriving DecidableEq

/-- The `(sortBy, sortDirection)` state of the flush-transactions table. -/
structure FlushSortState where
  sortBy : FlushSortField
  sortDirection : SortDirection
deriving DecidableEq

/-- The `toggleSort` handler of `FlushTransactions`. -/
def toggleSort (field : FlushSortField) (s : FlushSortState) : FlushSortState :=
  if s.sortBy = field then { s with sortDirection := flipDir s.sortDirection }
  else { sortBy := field, sortDirection := .desc }

/-! ## The lobby component's address handling (`AaLobbyEnters.tsx`) -/

/-- One entry's normalization: `addr.trim().toLowerCase()`. -/
def normalizeAddr (s : String) : String := jsToLower (jsTrim s)

/-- The syntactic validity test: exactly 42 characters and a `0x` start. -/
def validAddr (a : String) : Bool :=
  a.data.length = 42 && (a.data.take 2 = ['0', 'x'])

/-- The `addresses` memo: split the free-text input on commas, normalize
each entry, and keep the syntactically valid ones (an empty input short-
circuits to the empty list). -/
def addressesOf (memberAddresses : String) : List String :=
  if memberAddresses = "" then []
  else ((splitOnChar ',' memberAddresses).map normalizeAddr).filter validAddr

/-! ## Derived notions used to state and settle the claims -/

/-- Amount selection as the claim words it: the first of the two candidate
columns that parses to a non-NaN **positive** float. -/
def firstPositiveCandidate (c7 c8 : String) : Option ℚ :=
  match jsParseFloat c7 with
  | some q =>
    if 0 < q then some q
    else
      match jsParseFloat c8 with
      | some r => if 0 < r then some r else none
      | none => none
  | none =>
    match jsParseFloat c8 with
    | some r => if 0 < r then some r else none
    | none => none

/-- Amount selection as the code actually behaves, in spec wording: the first
of the two candidate columns that parses to a non-NaN **nonzero** float, and
`0` when neither does. -/
def firstNonzeroCandidate (c7 c8 : String) : ℚ :=
  match jsParseFloat c7 with
  | some q =>
    if q ≠ 0 then q
    else
      match jsParseFloat c8 with
      | some r => if r ≠ 0 then r else 0
      | none => 0
  | none =>
    match jsParseFloat c8 with
    | some r => if r ≠ 0 then r else 0
    | none => 0

/-- The contribution `(group key, amount, time value)` of one CSV line in a
send/receive pass; `none` when the line is blank, short, filtered out by the
address/amount guard, or carries an invalid date. -/
def lineContribution (ty : TxType) (line : String) : Option (String × ℚ × ℤ) :=
  if jsTrim line = "" then none
  else
    let columns := splitOnChar ',' (cleanLine line)
    if columns.length < 15 then none
    else
      let fromA := jsToLower (stripQuotes (columns.getD 4 ""))
      let toA := jsToLower (stripQuotes (columns.getD 5 ""))
      let amount := rowAmount (stripQuotes (columns.getD 7 ""))
                      (stripQuotes (columns.getD 8 ""))
      if (ty = .send ∧ fromA = TARGET_ADDRESS ∧ amount > 0) ∨
         (ty = .receive ∧ toA = TARGET_ADDRESS ∧ amount > 0) then
        (jsDateMs (stripQuotes (columns.getD 3 ""))).map
          (fun ts => (if fromA = TARGET_ADDRESS then toA else fromA, amount, ts))
      else none

/-- The `(amount, time value)` contributions a fixed summary key receives
during a send/receive pass, in row order. -/
def contribsFor (ty : TxType) (lines : List String) (key : String) : List (ℚ × ℤ) :=
  ((lines.filterMap (lineContribution ty)).filter (fun c => c.1 = key)).map
    (fun c => c.2)

/-- One `processTransaction` update of a key's summary entry by a
contribution. -/
def updTxn (key : String) (acc : Option Txn) (c : ℚ × ℤ) : Txn :=
  let cur : Txn := acc.getD ⟨key, none, 0, 0, c.2, c.2⟩
  { cur with amount := cur.amount + c.1, count := cur.count + 1,
             firstDate := min cur.firstDate c.2, lastDate := max cur.lastDate c.2 }

/-- Sequential aggregation of a key's contributions. -/
def aggTxn (key : String) (cs : List (ℚ × ℤ)) : Option Txn :=
  cs.foldl (fun a c => some (updTxn key a c)) none

/-- Apply one optional contribution to the state, exactly as
`processTransaction` does. -/
def applyContrib (st : AggState) : Option (String × ℚ × ℤ) → AggState
  | none => st
  | some c =>
    ⟨setSummary st.summary c.1 (updTxn c.1 (lookupKV st.summary c.1) c.2),
     addDaily st.daily (isoDateKey c.2.2) c.2.1⟩

/-- The parsed columns of a valid internal row; `none` when the line is
blank or has fewer than 11 columns. -/
def internalRowOf (line : String) : Option (List String) :=
  if jsTrim line = "" then none
  else
    let columns := splitOnChar ',' (cleanLine line)
    if columns.length < 11 then none else some columns

/-- The valid internal rows of a list of data lines, in order. -/
def internalRows (lines : List String) : List (List String) :=
  lines.filterMap internalRowOf

/-- The transaction hash of an internal row (column 0, quotes stripped). -/
def internalHash (cols : List String) : String := stripQuotes (cols.getD 0 "")

/-- The amount of an internal row: `parseFloat(columns[10]) || 0`. -/
def internalAmount (cols : List String) : ℚ :=
  jsOrNum (jsParseFloat (stripQuotes (cols.getD 10 ""))) 0

/-- The summary entry built from one valid internal row.  Whenever the pass
succeeds the row's timestamp is a valid date, so the `getD` default is never
reached. -/
def internalEntry (cols : List String) : Txn :=
  let ts := (jsDateMs (stripQuotes (cols.getD 3 ""))).getD 0
  ⟨"", some (internalHash cols), internalAmount cols, 1, ts, ts⟩

/-! ### Concrete inputs used by witnesses and counterexamples -/

/-- A well-formed send row: `from` is the target, candidate columns 7 and 8
hold `100.5` and `200.3`. -/
def sendRowScenario : String :=
  "a,b,c,2024-01-02,0xDEC9f2793e3c17cd26eeFb21C4762fA5128E0399,0xAAA,x,100.5,200.3,d,e,f,g,h,i"

/-- A send row whose column 7 parses to the negative float `-5` while
column 8 parses to `100`. -/
def sendRowNeg : String :=
  "a,b,c,2024-01-02,0xDEC9f2793e3c17cd26eeFb21C4762fA5128E0399,0xAAA,x,-5,100,d,e,f,g,h,i"

/-- A two-row send CSV with out-of-order dates (amounts 10 on Jan 2 and 5 on
Jan 1, to two different counterparties). -/
def sendCsvTwo : String :=
  "h\na,b,c,2024-01-02,0xDEC9f2793e3c17cd26eeFb21C4762fA5128E0399,0xAAA,x,10,,d,e,f,g,h,i\na,b,c,2024-01-01,0xDEC9f2793e3c17cd26eeFb21C4762fA5128E0399,0xBBB,x,5,,d,e,f,g,h,i"

/-- An internal CSV whose second row carries the negative amount `-3`. -/
def internalCsvNeg : String :=
  "h\nH1,x,y,2024-01-01,a,b,c,d,e,f,5\nH2,x,y,2024-01-02,a,b,c,d,e,f,-3"

/-- An internal CSV whose two valid rows share the hash `H1`. -/
def internalCsvDup : String :=
  "h\nH1,x,y,2024-01-02,a,b,c,d,e,f,5\nH1,x,y,2024-01-03,a,b,c,d,e,f,3"

/-- An internal row with exactly 11 columns whose amount column is empty. -/
def internalRowZero : String := "H9,x,y,2024-01-05,a,b,c,d,e,f,"

/-- A send row to counterparty `0xAAA` with amount 10 on 2024-01-02. -/
def sendRowA : String :=
  "a,b,c,2024-01-02,0xDEC9f2793e3c17cd26eeFb21C4762fA5128E0399,0xAAA,x,10,,d,e,f,g,h,i"

/-- A send row to counterparty `0xAAA` with amount 7 on 2024-01-03. -/
def sendRowB : String :=
  "a,b,c,2024-01-03,0xDEC9f2793e3c17cd26eeFb21C4762fA5128E0399,0xAAA,x,7,,d,e,f,g,h,i"

/-- The first row of `internalCsvDup` (hash `H1`, amount 5). -/
def internalRowDupA : String := "H1,x,y,2024-01-02,a,b,c,d,e,f,5"

/-- The second row of `internalCsvDup` (hash `H1` again, amount 3). -/
def internalRowDupB : String := "H1,x,y,2024-01-03,a,b,c,d,e,f,3"

/-! # Theorems

General-purpose lemmas about the model, followed by one theorem per claim
(with witnesses and counterexamples where required). -/

/- The Batteries `Rat` operations are `@[irreducible]`, which blocks the
evaluation of concrete pipeline runs inside `decide`; making them
semireducible for the proofs below restores it (the kernel is unaffected
either way). -/
attribute [local semireducible] Rat.ofScientific Rat.mul Rat.inv Rat.add Rat.sub

/-! ## Character lemmas -/

theorem toNat_ofNat_valid (n : ℕ) (h : n < 55296) : (Char.ofNat n).toNat = n := by
  simp [Char.ofNat, Nat.isValidChar, h, Char.ofNatAux, Char.toNat, UInt32.ofNat',
    UInt32.toNat, BitVec.toNat_ofNatLt]

theorem lowerChar_toNat (c : Char) :
    (lowerChar c).toNat =
      if 65 ≤ c.toNat ∧ c.toNat ≤ 90 then c.toNat + 32 else c.toNat := by
  unfold lowerChar
  split
  · next h => exact toNat_ofNat_valid _ (by omega)
  · rfl

theorem char_eq_iff_toNat (a b : Char) : a = b ↔ a.toNat = b.toNat := by
  constructor
  · rintro rfl; rfl
  · intro h
    apply Char.ext
    unfold Char.toNat at h
    exact UInt32.toNat.inj h

theorem lowerChar_lowerChar (c : Char) : lowerChar (lowerChar c) = lowerChar c := by
  unfold lowerChar
  split
  · next h =>
    rw [toNat_ofNat_valid _ (by omega), if_neg (by omega)]
  · rfl

theorem not_isWhitespace_of_lower (c : Char) (h : 65 ≤ c.toNat) :
    c.isWhitespace = false := by
  unfold Char.isWhitespace
  have h32 : c ≠ ' ' := fun e => by rw [char_eq_iff_toNat] at e; simp at e; omega
  have h9 : c ≠ '\t' := fun e => by rw [char_eq_iff_toNat] at e; simp at e; omega
  have h13 : c ≠ '\r' := fun e => by rw [char_eq_iff_toNat] at e; simp at e; omega
  have h10 : c ≠ '\n' := fun e => by rw [char_eq_iff_toNat] at e; simp at e; omega
  simp [h32, h9, h13, h10]

theorem isWhitespace_lowerChar (c : Char) :
    (lowerChar c).isWhitespace = c.isWhitespace := by
  by_cases h : 65 ≤ c.toNat ∧ c.toNat ≤ 90
  · have h1 := lowerChar_toNat c
    rw [if_pos h] at h1
    rw [not_isWhitespace_of_lower _ (by omega), not_isWhitespace_of_lower _ (by omega)]
  · unfold lowerChar
    rw [if_neg h]

/-! ## List-level lemmas -/

theorem dropWhile_idem {α : Type} (p : α → Bool) (l : List α) :
    (l.dropWhile p).dropWhile p = l.dropWhile p := by
  induction l with
  | nil => rfl
  | cons c t ih =>
    by_cases h : p c
    · simp [List.dropWhile_cons, h, ih]
    · simp [List.dropWhile_cons, h]

theorem dropWhile_of_prefix {α : Type} (p : α → Bool) {y x : List α}
    (hp : y <+: x) (hx : x.dropWhile p = x) : y.dropWhile p = y := by
  cases y with
  | nil => rfl
  | cons c t =>
    obtain ⟨r, hr⟩ := hp
    have hc : p c = false := by
      by_contra hcne
      have hpc : p c = true := by revert hcne; cases p c <;> simp
      have hstep : x.dropWhile p = ((t ++ r).dropWhile p) := by
        rw [← hr, List.cons_append, List.dropWhile_cons, hpc]; simp
      have hsuf : (t ++ r).dropWhile p <:+ t ++ r := List.dropWhile_suffix p
      have hlen := hsuf.length_le
      simp [List.length_append] at hlen
      rw [hx] at hstep
      have hlx : x.length = ((t ++ r).dropWhile p).length := by rw [← hstep]
      rw [← hr] at hlx
      simp [List.length_append] at hlx
      omega
    simp [List.dropWhile_cons, hc]

theorem trimChars_dropWhile (l : List Char) :
    (trimChars l).dropWhile Char.isWhitespace = trimChars l := by
  have hsuf : (l.dropWhile Char.isWhitespace).reverse.dropWhile Char.isWhitespace <:+
      (l.dropWhile Char.isWhitespace).reverse := List.dropWhile_suffix _
  have hpre : trimChars l <+: l.dropWhile Char.isWhitespace := by
    rw [← List.reverse_suffix]
    simpa [trimChars, List.reverse_reverse] using hsuf
  exact dropWhile_of_prefix _ hpre (dropWhile_idem _ l)

theorem trimChars_idem (l : List Char) : trimChars (trimChars l) = trimChars l := by
  conv_lhs => rw [trimChars, trimChars_dropWhile]
  rw [show (trimChars l).reverse = (l.dropWhile Char.isWhitespace).reverse.dropWhile Char.isWhitespace
      from by rw [trimChars, List.reverse_reverse]]
  rw [dropWhile_idem, ← trimChars]

theorem dropWhile_ws_map_lower (l : List Char) :
    (l.map lowerChar).dropWhile Char.isWhitespace =
      (l.dropWhile Char.isWhitespace).map lowerChar := by
  induction l with
  | nil => rfl
  | cons c t ih =>
    by_cases h : c.isWhitespace
    · simp [List.dropWhile_cons, isWhitespace_lowerChar c, h, ih]
    · simp [List.dropWhile_cons, isWhitespace_lowerChar c, h]

theorem trimChars_map_lower (l : List Char) :
    trimChars (l.map lowerChar) = (trimChars l).map lowerChar := by
  unfold trimChars
  rw [dropWhile_ws_map_lower, ← List.map_reverse, dropWhile_ws_map_lower, ← List.map_reverse]

theorem map_lower_idem (l : List Char) :
    (l.map lowerChar).map lowerChar = l.map lowerChar := by
  rw [List.map_map]
  exact List.map_congr_left (fun a _ => lowerChar_lowerChar a)

theorem normalizeAddr_idem (s : String) :
    normalizeAddr (normalizeAddr s) = normalizeAddr s := by
  show String.mk _ = String.mk _
  apply congrArg
  show (trimChars ((trimChars s.data).map lowerChar)).map lowerChar =
    (trimChars s.data).map lowerChar
  rw [trimChars_map_lower, trimChars_idem, map_lower_idem]

/-! ## C9: lobby address normalization -/

/-- C9: the lobby address normalization (trim then lowercase) is idempotent,
and the entries sent in the query are exactly the normalized comma-separated
entries that are 42 characters long and start with `0x` (the code's validity
filter `validAddr`). -/
theorem C9_lobby_address_normalization :
    (∀ s : String, normalizeAddr (normalizeAddr s) = normalizeAddr s) ∧
    (∀ (input a : String),
      a ∈ addressesOf input ↔
        ((∃ e ∈ splitOnChar ',' input, normalizeAddr e = a) ∧ validAddr a = true)) := by
  refine ⟨normalizeAddr_idem, fun input a => ?_⟩
  by_cases h : input = ""
  · subst h
    rw [show addressesOf "" = [] from rfl]
    simp only [List.not_mem_nil, false_iff]
    rintro ⟨⟨e, he, hnorm⟩, hvalid⟩
    have hsplit : splitOnChar ',' "" = [""] := rfl
    rw [hsplit] at he
    simp at he
    subst he
    have : normalizeAddr "" = "" := rfl
    rw [this] at hnorm
    subst hnorm
    simp [validAddr] at hvalid
  · simp only [addressesOf, if_neg h, List.mem_filter, List.mem_map]

/-! ## C7: sort toggling -/

/-- C7: for both tables, invoking the sort handler on the active field flips
the direction (so two invocations restore the state), and invoking it on a
different field selects that field with descending direction. -/
theorem C7_sort_toggle :
    (∀ (s : StakeSortState) (f : SortField),
      (s.sortField = f →
        handleSort f (handleSort f s) = s ∧
        (handleSort f s).sortDirection = flipDir s.sortDirection) ∧
      (s.sortField ≠ f → handleSort f s = ⟨f, .desc⟩)) ∧
    (∀ (s : FlushSortState) (f : FlushSortField),
      (s.sortBy = f →
        toggleSort f (toggleSort f s) = s ∧
        (toggleSort f s).sortDirection = flipDir s.sortDirection) ∧
      (s.sortBy ≠ f → toggleSort f s = ⟨f, .desc⟩)) := by
  constructor
  · rintro ⟨sf, sd⟩ f
    constructor
    · rintro rfl
      cases sd <;> simp [handleSort, flipDir]
    · intro h
      simp [handleSort, h]
  · rintro ⟨sf, sd⟩ f
    constructor
    · rintro rfl
      cases sd <;> simp [toggleSort, flipDir]
    · intro h
      simp [toggleSort, h]

/-- Witness for C7 at concrete states: toggling the active field twice
restores `(start, asc)` and `(amount, desc)`; selecting a different field
yields it descending. -/
theorem C7_sort_toggle_witness :
    ((⟨.start, .asc⟩ : StakeSortState).sortField = .start ∧
      handleSort .start (handleSort .start ⟨.start, .asc⟩) = ⟨.start, .asc⟩) ∧
    ((⟨.start, .asc⟩ : StakeSortState).sortField ≠ .roi ∧
      handleSort .roi ⟨.start, .asc⟩ = ⟨.roi, .desc⟩) ∧
    ((⟨.amount, .desc⟩ : FlushSortState).sortBy = .amount ∧
      toggleSort .amount (toggleSort .amount ⟨.amount, .desc⟩) = ⟨.amount, .desc⟩) ∧
    ((⟨.amount, .desc⟩ : FlushSortState).sortBy ≠ .date ∧
      toggleSort .date ⟨.amount, .desc⟩ = ⟨.date, .desc⟩) :=
  ⟨⟨rfl, ((C7_sort_toggle.1 ⟨.start, .asc⟩ .start).1 rfl).1⟩,
   ⟨by decide, (C7_sort_toggle.1 ⟨.start, .asc⟩ .roi).2 (by decide)⟩,
   ⟨rfl, ((C7_sort_toggle.2 ⟨.amount, .desc⟩ .amount).1 rfl).1⟩,
   ⟨by decide, (C7_sort_toggle.2 ⟨.amount, .desc⟩ .date).2 (by decide)⟩⟩

/-! ## C6: the stakes status filter -/

/-- C6: with the other criteria unchanged, status `active` keeps a stake
exactly when it passes the other criteria and has no `StakeEnd`, status
`ended` exactly when it passes them and has one, and status `all` is
insensitive to the presence of a `StakeEnd`. -/
theorem C6_status_filter :
    ∀ (searchAddress : String) (startR endR : DateRange) (stake : StakeStart),
      (stakePasses .active searchAddress startR endR stake =
        (stake.stakeEnd.isNone && stakePasses .all searchAddress startR endR stake)) ∧
      (stakePasses .ended searchAddress startR endR stake =
        (stake.stakeEnd.isSome && stakePasses .all searchAddress startR endR stake)) ∧
      (∀ e : Option StakeEnd,
        stakePasses .all searchAddress startR endR { stake with stakeEnd := e } =
          stakePasses .all searchAddress startR endR stake) := by
  intro searchAddress startR endR stake
  refine ⟨?_, ?_, ?_⟩
  · cases hE : stake.stakeEnd <;> simp [stakePasses, hE]
  · cases hE : stake.stakeEnd <;> simp [stakePasses, hE]
  · intro e
    cases e <;> cases hE : stake.stakeEnd <;> simp [stakePasses, hE]

/-! ## C8: ROI and division by zero -/

/-- C8: the ROI value used by the `roi` comparator is `0` for a stake with
no `StakeEnd` and `payout / stakedHearts` for an ended stake with a nonzero
staked amount; the division is unguarded, so an ended stake whose
`stakedHearts` parses to `0` makes both the comparator value and the
displayed percentage non-finite. -/
theorem C8_roi_division_by_zero :
    (∀ s : StakeStart, s.stakeEnd = none → roiSortValue s = .num 0) ∧
    (∀ (s : StakeStart) (e : StakeEnd) (p q : ℚ), s.stakeEnd = some e →
      jsParseFloat e.payout = some p → jsParseFloat s.stakedHearts = some q →
      q ≠ 0 → roiSortValue s = .num (p / q)) ∧
    (∀ (s : StakeStart) (e : StakeEnd), s.stakeEnd = some e →
      jsParseFloat s.stakedHearts = some 0 →
      isFiniteJS (roiSortValue s) = false ∧
      isFiniteJS (roiDisplayValue s e) = false) := by
  refine ⟨?_, ?_, ?_⟩
  · intro s h
    simp [roiSortValue, h]
  · intro s e p q hE hp hq hq0
    simp only [roiSortValue, hE, hp, hq, oAddQ, oSubQ, jsDivQ]
    rw [if_neg hq0]
    ring_nf
  · intro s e hE hq
    constructor
    · simp only [roiSortValue, hE, hq]
      cases hp : jsParseFloat e.payout with
      | none => simp [oAddQ, oSubQ, jsDivQ, isFiniteJS]
      | some p =>
        simp only [oAddQ, oSubQ, jsDivQ, if_pos rfl]
        by_cases hp0 : p = 0 <;> simp [hp0, isFiniteJS]
    · simp only [roiDisplayValue, hq]
      cases hp : jsParseFloat e.payout with
      | none => simp [oAddQ, oSubQ, jsDivQ, jsMulC, isFiniteJS]
      | some p =>
        simp only [oAddQ, oSubQ, jsDivQ, if_pos rfl]
        by_cases hp0 : p = 0 <;> simp [hp0, jsMulC, isFiniteJS]

/-- Witness for C8: a concrete ended stake whose `stakedHearts` is the
string `"0"` and whose payout is `"5"`; its comparator and display ROI are
non-finite. -/
theorem C8_roi_division_by_zero_witness :
    (StakeStart.mk "s" "0xa" "1" "0" "0" "0" "1" "0" "100" "1600000000" false "h"
        (some (StakeEnd.mk "e" "0xa" "1" "5" "0" "0" "1" "0" "0" "0" "0" "h"))).stakeEnd =
      some (StakeEnd.mk "e" "0xa" "1" "5" "0" "0" "1" "0" "0" "0" "0" "h") ∧
    jsParseFloat (StakeStart.mk "s" "0xa" "1" "0" "0" "0" "1" "0" "100" "1600000000" false "h"
        (some (StakeEnd.mk "e" "0xa" "1" "5" "0" "0" "1" "0" "0" "0" "0" "h"))).stakedHearts =
      some 0 ∧
    isFiniteJS (roiSortValue (StakeStart.mk "s" "0xa" "1" "0" "0" "0" "1" "0" "100"
        "1600000000" false "h"
        (some (StakeEnd.mk "e" "0xa" "1" "5" "0" "0" "1" "0" "0" "0" "0" "h")))) = false ∧
    isFiniteJS (roiDisplayValue (StakeStart.mk "s" "0xa" "1" "0" "0" "0" "1" "0" "100"
        "1600000000" false "h"
        (some (StakeEnd.mk "e" "0xa" "1" "5" "0" "0" "1" "0" "0" "0" "0" "h")))
        (StakeEnd.mk "e" "0xa" "1" "5" "0" "0" "1" "0" "0" "0" "0" "h")) = false := by
  refine ⟨rfl, by decide, ?_, ?_⟩
  · exact (C8_roi_division_by_zero.2.2 _ _ rfl (by decide)).1
  · exact (C8_roi_division_by_zero.2.2 _ _ rfl (by decide)).2

/-! ## Association-list lemmas -/

theorem lookupKV_eq_none_iff {α β : Type} [DecidableEq α] (m : List (α × β)) (k : α) :
    lookupKV m k = none ↔ k ∉ m.map (fun p => p.1) := by
  induction m with
  | nil => simp [lookupKV]
  | cons p rest ih =>
    by_cases h : p.1 = k
    · simp [lookupKV, h]
    · rw [lookupKV, if_neg h, ih]
      simp only [List.map_cons, List.mem_cons, not_or]
      constructor
      · intro hk
        exact ⟨fun e => h e.symm, hk⟩
      · intro hk
        exact hk.2

theorem lookupKV_some_mem {α β : Type} [DecidableEq α] {m : List (α × β)} {k : α} {v : β}
    (h : lookupKV m k = some v) : (k, v) ∈ m := by
  induction m with
  | nil => simp [lookupKV] at h
  | cons p rest ih =>
    by_cases hp : p.1 = k
    · rw [lookupKV, if_pos hp] at h
      have hv : p.2 = v := by injection h
      have hpe : p = (k, v) := by
        calc p = (p.1, p.2) := rfl
          _ = (k, v) := by rw [hp, hv]
      rw [← hpe]
      exact List.mem_cons_self _ _
    · rw [lookupKV, if_neg hp] at h
      exact List.mem_cons_of_mem _ (ih h)

theorem lookupKV_map_replace {α β : Type} [DecidableEq α] (m : List (α × β)) (k : α) (v : β) :
    lookupKV (m.map (fun p => if p.1 = k then (k, v) else p)) k =
      (lookupKV m k).map (fun _ => v) := by
  induction m with
  | nil => rfl
  | cons p rest ih =>
    by_cases h : p.1 = k
    · simp [lookupKV, h]
    · simp [lookupKV, h, ih]

theorem lookupKV_map_replace_ne {α β : Type} [DecidableEq α] (m : List (α × β)) (k k' : α)
    (v : β) (h : k' ≠ k) :
    lookupKV (m.map (fun p => if p.1 = k then (k, v) else p)) k' = lookupKV m k' := by
  induction m with
  | nil => rfl
  | cons p rest ih =>
    show lookupKV ((if p.1 = k then (k, v) else p) :: _) k' = lookupKV (p :: rest) k'
    by_cases hp : p.1 = k
    · have h1 : ¬ (k = k') := fun e => h e.symm
      have h2 : ¬ (p.1 = k') := by rw [hp]; exact h1
      rw [if_pos hp, lookupKV, if_neg h1, lookupKV, if_neg h2]
      exact ih
    · rw [if_neg hp]
      by_cases hp' : p.1 = k'
      · rw [lookupKV, if_pos hp', lookupKV, if_pos hp']
      · rw [lookupKV, if_neg hp', lookupKV, if_neg hp']
        exact ih

theorem lookupKV_append_left {α β : Type} [DecidableEq α] {m₁ : List (α × β)}
    (m₂ : List (α × β)) {k : α} {v : β} (h : lookupKV m₁ k = some v) :
    lookupKV (m₁ ++ m₂) k = some v := by
  induction m₁ with
  | nil => simp [lookupKV] at h
  | cons p rest ih =>
    by_cases hp : p.1 = k
    · rw [lookupKV, if_pos hp] at h
      simp [lookupKV, hp, h]
    · rw [lookupKV, if_neg hp] at h
      simp [lookupKV, hp, ih h]

theorem lookupKV_append_right {α β : Type} [DecidableEq α] {m₁ : List (α × β)}
    (m₂ : List (α × β)) {k : α} (h : lookupKV m₁ k = none) :
    lookupKV (m₁ ++ m₂) k = lookupKV m₂ k := by
  induction m₁ with
  | nil => rfl
  | cons p rest ih =>
    by_cases hp : p.1 = k
    · rw [lookupKV, if_pos hp] at h
      cases h
    · rw [lookupKV, if_neg hp] at h
      simp [lookupKV, hp, ih h]

theorem lookupKV_setSummary_self (m : List (String × Txn)) (k : String) (v : Txn) :
    lookupKV (setSummary m k v) k = some v := by
  unfold setSummary
  by_cases h : (lookupKV m k).isSome
  · rw [if_pos h, lookupKV_map_replace]
    obtain ⟨w, hw⟩ := Option.isSome_iff_exists.mp h
    simp [hw]
  · rw [if_neg h]
    have hn : lookupKV m k = none := Option.not_isSome_iff_eq_none.mp h
    rw [lookupKV_append_right _ hn]
    simp [lookupKV]

theorem lookupKV_setSummary_ne (m : List (String × Txn)) (k k' : String) (v : Txn)
    (h : k' ≠ k) : lookupKV (setSummary m k v) k' = lookupKV m k' := by
  unfold setSummary
  split
  · exact lookupKV_map_replace_ne _ _ _ _ h
  · cases hk : lookupKV m k' with
    | some w => exact lookupKV_append_left _ hk
    | none =>
      rw [lookupKV_append_right [(k, v)] hk]
      have hne : ¬ ((k, v).1 = k') := fun e => h e.symm
      rw [lookupKV, if_neg hne]
      rfl

theorem setSummary_of_none (m : List (String × Txn)) (k : String) (v : Txn)
    (h : lookupKV m k = none) : setSummary m k v = m ++ [(k, v)] := by
  unfold setSummary
  rw [h]
  rfl

theorem addDaily_of_none (d : List (List Char × ℚ)) (k : List Char) (a : ℚ)
    (h : lookupKV d k = none) : addDaily d k a = d ++ [(k, a)] := by
  unfold addDaily
  rw [h]

theorem keys_map_replace {α β : Type} [DecidableEq α] (m : List (α × β)) (k : α) (v : β) :
    (m.map (fun p => if p.1 = k then (k, v) else p)).map (fun p => p.1) =
      m.map (fun p => p.1) := by
  rw [List.map_map]
  apply List.map_congr_left
  intro p _
  by_cases h : p.1 = k <;> simp [h]

theorem addDaily_nodup (d : List (List Char × ℚ)) (k : List Char) (a : ℚ)
    (h : (d.map (fun p => p.1)).Nodup) :
    ((addDaily d k a).map (fun p => p.1)).Nodup := by
  unfold addDaily
  cases hk : lookupKV d k with
  | some v => rw [keys_map_replace]; exact h
  | none =>
    have hnm : k ∉ d.map (fun p => p.1) := (lookupKV_eq_none_iff d k).mp hk
    simp [List.nodup_append, h, hnm]

theorem addDaily_nonneg (d : List (List Char × ℚ)) (k : List Char) (a : ℚ)
    (hd : ∀ p ∈ d, 0 ≤ p.2) (ha : 0 ≤ a) : ∀ p ∈ addDaily d k a, 0 ≤ p.2 := by
  unfold addDaily
  cases hk : lookupKV d k with
  | some v =>
    intro p hp
    simp only [List.mem_map] at hp
    obtain ⟨q, hq, rfl⟩ := hp
    by_cases h : q.1 = k
    · simp only [if_pos h]
      exact add_nonneg (hd _ (lookupKV_some_mem hk)) ha
    · simp only [if_neg h]
      exact hd _ hq
  | none =>
    intro p hp
    rcases List.mem_append.mp hp with h | h
    · exact hd _ h
    · simp at h
      rw [h]
      exact ha

/-! ## Shape of one pipeline step -/

theorem flushStep_daily_shape (ty : TxType) (st : AggState) (line : String)
    (st' : AggState) (h : flushStep ty st line = some st') :
    st'.daily = st.daily ∨
    ∃ k a, st'.daily = addDaily st.daily k a ∧ (ty = .internal ∨ 0 < a) := by
  simp only [flushStep] at h
  split at h
  · left; cases h; rfl
  · split at h
    · next hint =>
      split at h
      · left; cases h; rfl
      · split at h
        · cases h
        · cases h
          exact Or.inr ⟨_, _, rfl, Or.inl hint⟩
    · split at h
      · left; cases h; rfl
      · split at h
        · next hg =>
          split at h
          · cases h
          · cases h
            exact Or.inr ⟨_, _, rfl, Or.inr hg.2.2⟩
        · split at h
          · next hg =>
            split at h
            · cases h
            · cases h
              exact Or.inr ⟨_, _, rfl, Or.inr hg.2.2⟩
          · left; cases h; rfl

theorem flushRun_daily_nodup (ty : TxType) :
    ∀ (lines : List String) (st st' : AggState), flushRun ty st lines = some st' →
      (st.daily.map (fun p => p.1)).Nodup → (st'.daily.map (fun p => p.1)).Nodup := by
  intro lines
  induction lines with
  | nil =>
    intro st st' h hn
    cases h
    exact hn
  | cons l ls ih =>
    intro st st' h hn
    unfold flushRun at h
    cases hs : flushStep ty st l with
    | none => rw [hs] at h; cases h
    | some st₁ =>
      rw [hs] at h
      apply ih _ _ h
      rcases flushStep_daily_shape _ _ _ _ hs with he | ⟨k, a, he, _⟩
      · rw [he]; exact hn
      · rw [he]; exact addDaily_nodup _ _ _ hn

theorem flushRun_daily_nonneg (ty : TxType) (hty : ty = .send ∨ ty = .receive) :
    ∀ (lines : List String) (st st' : AggState), flushRun ty st lines = some st' →
      (∀ p ∈ st.daily, 0 ≤ p.2) → ∀ p ∈ st'.daily, 0 ≤ p.2 := by
  intro lines
  induction lines with
  | nil =>
    intro st st' h hn
    cases h
    exact hn
  | cons l ls ih =>
    intro st st' h hn
    unfold flushRun at h
    cases hs : flushStep ty st l with
    | none => rw [hs] at h; cases h
    | some st₁ =>
      rw [hs] at h
      apply ih _ _ h
      rcases flushStep_daily_shape _ _ _ _ hs with he | ⟨k, a, he, hcase⟩
      · rw [he]; exact hn
      · rcases hcase with hint | hpos
        · rcases hty with rfl | rfl <;> cases hint
        · rw [he]
          exact addDaily_nonneg _ _ _ hn (le_of_lt hpos)

/-! ## The cumulative day series -/

theorem length_cumFrom (c : ℚ) (l : List (List Char × ℚ)) :
    (cumFrom c l).length = l.length := by
  induction l generalizing c with
  | nil => rfl
  | cons p rest ih =>
    cases p
    simp [cumFrom, ih]

theorem cumFrom_getD (c : ℚ) (l : List (List Char × ℚ)) (i : ℕ) (h : i < l.length) :
    (cumFrom c l).getD i ⟨[], 0, 0⟩ =
      ⟨(l.getD i ([], 0)).1, (l.getD i ([], 0)).2,
        c + ((l.map (fun p => p.2)).take (i + 1)).sum⟩ := by
  induction l generalizing c i with
  | nil => cases h
  | cons p rest ih =>
    cases p with
    | mk d a =>
      cases i with
      | zero => simp [cumFrom]
      | succ i =>
        have h' : i < rest.length := Nat.lt_of_succ_lt_succ h
        show (cumFrom (c + a) rest).getD i ⟨[], 0, 0⟩ = _
        rw [ih (c + a) i h']
        simp [List.take_succ_cons, add_assoc]

theorem cumFrom_map_date (c : ℚ) (l : List (List Char × ℚ)) :
    (cumFrom c l).map (fun e => e.date) = l.map (fun p => p.1) := by
  induction l generalizing c with
  | nil => rfl
  | cons p rest ih =>
    cases p
    simp [cumFrom, ih]

theorem cumFrom_map_amount (c : ℚ) (l : List (List Char × ℚ)) :
    (cumFrom c l).map (fun e => e.amount) = l.map (fun p => p.2) := by
  induction l generalizing c with
  | nil => rfl
  | cons p rest ih =>
    cases p
    simp [cumFrom, ih]

theorem getD_map_snd (l : List (List Char × ℚ)) (i : ℕ) :
    (l.map (fun p => p.2)).getD i 0 = (l.getD i ([], 0)).2 := by
  induction l generalizing i with
  | nil => rfl
  | cons p rest ih =>
    cases i with
    | zero => rfl
    | succ i => exact ih i

theorem getD_map_key (ks : List (List Char)) (f : List Char → List Char × ℚ)
    (hf : ∀ k, (f k).1 = k) (i : ℕ) (h : i < ks.length) :
    ((ks.map f).getD i ([], 0)).1 = ks.getD i [] := by
  induction ks generalizing i with
  | nil => cases h
  | cons k rest ih =>
    cases i with
    | zero => exact hf k
    | succ i => exact ih i (Nat.lt_of_succ_lt_succ h)

theorem sum_take_succ_getD (L : List ℚ) (i : ℕ) (h : i < L.length) :
    (L.take (i + 1)).sum = (L.take i).sum + L.getD i 0 := by
  induction L generalizing i with
  | nil => cases h
  | cons x xs ih =>
    cases i with
    | zero => simp
    | succ i =>
      have h' : i < xs.length := Nat.lt_of_succ_lt_succ h
      simp only [List.take_succ_cons, List.sum_cons, List.getD_cons_succ]
      rw [ih i h', add_assoc]

theorem sum_take_mono (L : List ℚ) (hL : ∀ x ∈ L, 0 ≤ x) {i j : ℕ} (hij : i ≤ j) :
    (L.take i).sum ≤ (L.take j).sum := by
  have h1 : L.take i = (L.take j).take i := by
    rw [List.take_take, min_eq_left hij]
  have h2 : List.Sublist ((L.take j).take i) (L.take j) := List.take_sublist _ _
  rw [h1]
  exact h2.sum_le_sum (fun a ha => hL a ((List.take_sublist _ _).subset ha))

/-- The day series of a successful pass, unfolded: a cumulative scan over
the lexicographically sorted day keys paired with their bucket values. -/
theorem flushDailyTotals_eq (ty : TxType) (csv : String) (st : AggState)
    (h : flushAgg ty csv = some st) :
    flushDailyTotals ty csv =
      some (cumFrom 0 (((st.daily.map (fun p => p.1)).insertionSort (· ≤ ·)).map
        (fun k => (k, (lookupKV st.daily k).getD 0)))) := by
  unfold flushDailyTotals
  rw [h]
  rfl

theorem flushAgg_run (ty : TxType) (csv : String) :
    flushAgg ty csv = flushRun ty ⟨[], []⟩ ((splitOnChar '\n' csv).drop 1) := rfl

/-- In a lexicographically strictly sorted key list, key order and index
order agree. -/
theorem sorted_lt_getD_le_iff (ks : List (List Char))
    (hs : List.Sorted (· < ·) ks) {i j : ℕ} (hi : i < ks.length)
    (hj : j < ks.length) : ks.getD j [] ≤ ks.getD i [] ↔ j ≤ i := by
  have hm : StrictMono ks.get := hs.get_strictMono
  rw [List.getD_eq_get _ _ hj, List.getD_eq_get _ _ hi, hm.le_iff_le, Fin.mk_le_mk]

/-! ## C2: structure of the cumulative day series -/

/-- C2: for any transaction type and any CSV text, a successfully produced
day series is ordered ascending by date, its first cumulative equals its
first amount, each later cumulative is the previous cumulative plus the
entry's amount, and the last cumulative is the sum of all amounts. -/
theorem C2_daily_cumulative (ty : TxType) (csv : String) (ts : List DailyTotal)
    (h : flushDailyTotals ty csv = some ts) :
    List.Pairwise (fun a b : DailyTotal => a.date ≤ b.date) ts ∧
    (0 < ts.length →
      (ts.getD 0 ⟨[], 0, 0⟩).cumulative = (ts.getD 0 ⟨[], 0, 0⟩).amount) ∧
    (∀ i : ℕ, i + 1 < ts.length →
      (ts.getD (i + 1) ⟨[], 0, 0⟩).cumulative =
        (ts.getD i ⟨[], 0, 0⟩).cumulative + (ts.getD (i + 1) ⟨[], 0, 0⟩).amount) ∧
    (ts ≠ [] →
      (ts.getD (ts.length - 1) ⟨[], 0, 0⟩).cumulative =
        (ts.map (fun e => e.amount)).sum) := by
  cases hA : flushAgg ty csv with
  | none =>
    unfold flushDailyTotals at h
    rw [hA] at h
    cases h
  | some st =>
  rw [flushDailyTotals_eq ty csv st hA] at h
  injection h with h
  subst h
  set ks := (st.daily.map (fun p => p.1)).insertionSort (· ≤ ·) with hks
  set l := ks.map (fun k => (k, (lookupKV st.daily k).getD 0)) with hl
  have hsorted : List.Sorted (· ≤ ·) ks := List.sorted_insertionSort _ _
  have hlen : (cumFrom 0 l).length = l.length := length_cumFrom 0 l
  refine ⟨?_, ?_, ?_, ?_⟩
  · have hdates : (cumFrom 0 l).map (fun e => e.date) = ks := by
      rw [cumFrom_map_date, hl, List.map_map]
      calc ks.map ((fun p : List Char × ℚ => p.1) ∘ (fun k => (k, (lookupKV st.daily k).getD 0)))
          = ks.map id := List.map_congr_left (fun a _ => rfl)
        _ = ks := List.map_id ks
    have hpw : List.Pairwise (· ≤ ·) ((cumFrom 0 l).map (fun e => e.date)) := by
      rw [hdates]
      exact hsorted
    exact List.pairwise_map.mp hpw
  · intro h0
    have h0l : 0 < l.length := by rwa [hlen] at h0
    rw [cumFrom_getD 0 l 0 h0l]
    have h0m : 0 < (l.map (fun p => p.2)).length := by simpa using h0l
    show 0 + ((l.map (fun p => p.2)).take 1).sum = (l.getD 0 ([], 0)).2
    rw [sum_take_succ_getD _ 0 h0m, getD_map_snd]
    simp
  · intro i hi
    have hil : i + 1 < l.length := by rwa [hlen] at hi
    rw [cumFrom_getD 0 l (i + 1) hil, cumFrom_getD 0 l i (Nat.lt_of_succ_lt hil)]
    show 0 + ((l.map (fun p => p.2)).take (i + 2)).sum =
      0 + ((l.map (fun p => p.2)).take (i + 1)).sum + (l.getD (i + 1) ([], 0)).2
    have him : i + 1 < (l.map (fun p => p.2)).length := by simpa using hil
    rw [sum_take_succ_getD _ (i + 1) him, getD_map_snd]
    ring
  · intro hne
    have hlne : l ≠ [] := by
      intro e
      apply hne
      rw [e]
      rfl
    have hpos : 0 < l.length := List.length_pos.mpr hlne
    have hlast : (cumFrom 0 l).length - 1 < l.length := by
      rw [hlen]
      omega
    rw [cumFrom_getD 0 l _ hlast, cumFrom_map_amount]
    show 0 + ((l.map (fun p => p.2)).take ((cumFrom 0 l).length - 1 + 1)).sum =
      (l.map (fun p => p.2)).sum
    have hl1 : (cumFrom 0 l).length - 1 + 1 = (l.map (fun p => p.2)).length := by
      have hml : (l.map (fun p => p.2)).length = l.length := List.length_map _ _
      omega
    rw [hl1, List.take_length, zero_add]

/-- Witness for C2: the send pass over a two-row CSV with out-of-order dates
produces the sorted two-day series `(5, 5)` then `(10, 15)`, and the theorem
applies to it. -/
theorem C2_daily_cumulative_witness :
    flushDailyTotals .send sendCsvTwo =
      some [⟨"2024-01-01".data, 5, 5⟩, ⟨"2024-01-02".data, 10, 15⟩] ∧
    (List.Pairwise (fun a b : DailyTotal => a.date ≤ b.date)
      [⟨"2024-01-01".data, 5, 5⟩, ⟨"2024-01-02".data, 10, 15⟩] ∧
    (0 < ([⟨"2024-01-01".data, 5, 5⟩, ⟨"2024-01-02".data, 10, 15⟩] : List DailyTotal).length →
      (([⟨"2024-01-01".data, 5, 5⟩, ⟨"2024-01-02".data, 10, 15⟩] : List DailyTotal).getD 0
          ⟨[], 0, 0⟩).cumulative =
        (([⟨"2024-01-01".data, 5, 5⟩, ⟨"2024-01-02".data, 10, 15⟩] : List DailyTotal).getD 0
          ⟨[], 0, 0⟩).amount) ∧
    (∀ i : ℕ, i + 1 < ([⟨"2024-01-01".data, 5, 5⟩, ⟨"2024-01-02".data, 10, 15⟩] : List DailyTotal).length →
      (([⟨"2024-01-01".data, 5, 5⟩, ⟨"2024-01-02".data, 10, 15⟩] : List DailyTotal).getD (i + 1)
          ⟨[], 0, 0⟩).cumulative =
        (([⟨"2024-01-01".data, 5, 5⟩, ⟨"2024-01-02".data, 10, 15⟩] : List DailyTotal).getD i
          ⟨[], 0, 0⟩).cumulative +
        (([⟨"2024-01-01".data, 5, 5⟩, ⟨"2024-01-02".data, 10, 15⟩] : List DailyTotal).getD (i + 1)
          ⟨[], 0, 0⟩).amount) ∧
    (([⟨"2024-01-01".data, 5, 5⟩, ⟨"2024-01-02".data, 10, 15⟩] : List DailyTotal) ≠ [] →
      (([⟨"2024-01-01".data, 5, 5⟩, ⟨"2024-01-02".data, 10, 15⟩] : List DailyTotal).getD
          (([⟨"2024-01-01".data, 5, 5⟩, ⟨"2024-01-02".data, 10, 15⟩] : List DailyTotal).length - 1)
          ⟨[], 0, 0⟩).cumulative =
        (([⟨"2024-01-01".data, 5, 5⟩, ⟨"2024-01-02".data, 10, 15⟩] : List DailyTotal).map
          (fun e => e.amount)).sum)) := by
  have hW : flushDailyTotals .send sendCsvTwo =
      some [⟨"2024-01-01".data, 5, 5⟩, ⟨"2024-01-02".data, 10, 15⟩] := by
    decide
  exact ⟨hW, C2_daily_cumulative _ _ _ hW⟩

/-! ## C3: monotonicity of the cumulative series -/

/-- Counterexample for C3 as stated: in an `internal` pass a negative amount
column is kept, so the produced date-ordered series can have a strictly
decreasing cumulative (here 5 on 2024-01-01 followed by 2 on 2024-01-02). -/
theorem C3_counterexample :
    flushDailyTotals .internal internalCsvNeg =
      some [⟨"2024-01-01".data, 5, 5⟩, ⟨"2024-01-02".data, -3, 2⟩] ∧
    ("2024-01-01".data : List Char) ≤ "2024-01-02".data ∧ ((2 : ℚ) < 5) :=
  ⟨by decide, by decide, by decide⟩

/-- C3 (amended): for `send`/`receive` passes every included amount is
strictly positive, so the cumulative is non-decreasing along the series; for
every transaction type, dates order the entries exactly as their indices do
and each entry's cumulative is the sum of the amounts of the entries up to
and including it (equivalently, of all entries with date less than or equal
to its own). -/
theorem C3_cumulative_monotone :
    (∀ ty : TxType, (ty = .send ∨ ty = .receive) →
      ∀ (csv : String) (ts : List DailyTotal), flushDailyTotals ty csv = some ts →
        List.Pairwise (fun a b : DailyTotal => a.cumulative ≤ b.cumulative) ts) ∧
    (∀ (ty : TxType) (csv : String) (ts : List DailyTotal),
      flushDailyTotals ty csv = some ts →
      ∀ i j : ℕ, i < ts.length → j < ts.length →
        ((ts.getD j ⟨[], 0, 0⟩).date ≤ (ts.getD i ⟨[], 0, 0⟩).date ↔ j ≤ i) ∧
        (ts.getD i ⟨[], 0, 0⟩).cumulative =
          ((ts.take (i + 1)).map (fun e => e.amount)).sum) := by
  constructor
  · intro ty hty csv ts h
    cases hA : flushAgg ty csv with
    | none =>
      unfold flushDailyTotals at h
      rw [hA] at h
      cases h
    | some st =>
    rw [flushDailyTotals_eq ty csv st hA] at h
    injection h with h
    subst h
    set ks := (st.daily.map (fun p => p.1)).insertionSort (· ≤ ·) with hks
    set l := ks.map (fun k => (k, (lookupKV st.daily k).getD 0)) with hl
    have hlen : (cumFrom 0 l).length = l.length := length_cumFrom 0 l
    have hd0 : ∀ p ∈ (⟨[], []⟩ : AggState).daily, (0 : ℚ) ≤ p.2 := by
      intro p hp
      cases hp
    have hdnn : ∀ p ∈ st.daily, (0 : ℚ) ≤ p.2 :=
      flushRun_daily_nonneg ty hty _ _ _ (flushAgg_run ty csv ▸ hA) hd0
    have hlnn : ∀ x ∈ l.map (fun p => p.2), (0 : ℚ) ≤ x := by
      intro x hx
      simp only [hl, List.map_map, List.mem_map] at hx
      obtain ⟨k, _, rfl⟩ := hx
      cases hlk : lookupKV st.daily k with
      | none => simp [hlk]
      | some v =>
        simp only [Function.comp_apply, hlk, Option.getD_some]
        exact hdnn _ (lookupKV_some_mem hlk)
    rw [List.pairwise_iff_get]
    intro a b hab
    rw [← List.getD_eq_get _ ⟨[], 0, 0⟩ a.isLt, ← List.getD_eq_get _ ⟨[], 0, 0⟩ b.isLt]
    have hal : (a : ℕ) < l.length := by rw [← hlen]; exact a.isLt
    have hbl : (b : ℕ) < l.length := by rw [← hlen]; exact b.isLt
    rw [cumFrom_getD 0 l a hal, cumFrom_getD 0 l b hbl]
    show 0 + ((l.map (fun p => p.2)).take ((a : ℕ) + 1)).sum ≤
      0 + ((l.map (fun p => p.2)).take ((b : ℕ) + 1)).sum
    have hmono := sum_take_mono (l.map (fun p => p.2)) hlnn
      (Nat.succ_le_succ (le_of_lt hab))
    rw [zero_add, zero_add]
    exact hmono
  · intro ty csv ts h i j hi hj
    cases hA : flushAgg ty csv with
    | none =>
      unfold flushDailyTotals at h
      rw [hA] at h
      cases h
    | some st =>
    rw [flushDailyTotals_eq ty csv st hA] at h
    injection h with h
    subst h
    set ks := (st.daily.map (fun p => p.1)).insertionSort (· ≤ ·) with hks
    set l := ks.map (fun k => (k, (lookupKV st.daily k).getD 0)) with hl
    have hlen : (cumFrom 0 l).length = l.length := length_cumFrom 0 l
    have hkl : l.length = ks.length := by
      rw [hl, List.length_map]
    have hil : i < l.length := by rwa [hlen] at hi
    have hjl : j < l.length := by rwa [hlen] at hj
    have hknodup : ks.Nodup := by
      have hd := flushRun_daily_nodup ty _ _ _ (flushAgg_run ty csv ▸ hA)
        (by simp)
      exact (List.Perm.nodup_iff (List.perm_insertionSort _ _)).mpr hd
    have hstrict : List.Sorted (· < ·) ks :=
      (List.sorted_insertionSort _ _).lt_of_le hknodup
    constructor
    · rw [cumFrom_getD 0 l i hil, cumFrom_getD 0 l j hjl]
      show (l.getD j ([], 0)).1 ≤ (l.getD i ([], 0)).1 ↔ j ≤ i
      rw [hl, getD_map_key ks _ (fun k => rfl) i (hkl ▸ hil),
        getD_map_key ks _ (fun k => rfl) j (hkl ▸ hjl)]
      exact sorted_lt_getD_le_iff ks hstrict (hkl ▸ hil) (hkl ▸ hjl)
    · rw [cumFrom_getD 0 l i hil]
      show 0 + ((l.map (fun p => p.2)).take (i + 1)).sum = _
      rw [List.map_take, cumFrom_map_amount, zero_add]

/-- Witness for C3 (amended): the send series of `sendCsvTwo` has a
non-decreasing cumulative, and its index/date/prefix-sum structure at
`i = 1`, `j = 0` is as the theorem states. -/
theorem C3_cumulative_monotone_witness :
    (TxType.send = TxType.send ∨ TxType.send = TxType.receive) ∧
    flushDailyTotals .send sendCsvTwo =
      some [⟨"2024-01-01".data, 5, 5⟩, ⟨"2024-01-02".data, 10, 15⟩] ∧
    List.Pairwise (fun a b : DailyTotal => a.cumulative ≤ b.cumulative)
      [⟨"2024-01-01".data, 5, 5⟩, ⟨"2024-01-02".data, 10, 15⟩] ∧
    ((1 : ℕ) < ([⟨"2024-01-01".data, 5, 5⟩, ⟨"2024-01-02".data, 10, 15⟩] : List DailyTotal).length ∧
     (0 : ℕ) < ([⟨"2024-01-01".data, 5, 5⟩, ⟨"2024-01-02".data, 10, 15⟩] : List DailyTotal).length) ∧
    ((([⟨"2024-01-01".data, 5, 5⟩, ⟨"2024-01-02".data, 10, 15⟩] : List DailyTotal).getD 0
        ⟨[], 0, 0⟩).date ≤
      (([⟨"2024-01-01".data, 5, 5⟩, ⟨"2024-01-02".data, 10, 15⟩] : List DailyTotal).getD 1
        ⟨[], 0, 0⟩).date ↔ (0 : ℕ) ≤ 1) ∧
    (([⟨"2024-01-01".data, 5, 5⟩, ⟨"2024-01-02".data, 10, 15⟩] : List DailyTotal).getD 1
        ⟨[], 0, 0⟩).cumulative =
      ((([⟨"2024-01-01".data, 5, 5⟩, ⟨"2024-01-02".data, 10, 15⟩] : List DailyTotal).take 2).map
        (fun e => e.amount)).sum := by
  have hW : flushDailyTotals .send sendCsvTwo =
      some [⟨"2024-01-01".data, 5, 5⟩, ⟨"2024-01-02".data, 10, 15⟩] := by
    decide
  have h2 := C3_cumulative_monotone.2 .send sendCsvTwo _ hW 1 0 (by decide) (by decide)
  exact ⟨Or.inl rfl, hW, C3_cumulative_monotone.1 .send (Or.inl rfl) sendCsvTwo _ hW,
    ⟨by decide, by decide⟩, h2.1, h2.2⟩

/-! ## C4: the internal summary keeps one entry per row -/

/-- One internal step, characterized by the parsed row. -/
theorem flushStep_internal_char (st : AggState) (line : String) :
    flushStep .internal st line =
      match internalRowOf line with
      | none => some st
      | some cols =>
        match jsDateMs (stripQuotes (cols.getD 3 "")) with
        | none => none
        | some ts =>
          some ⟨setSummary st.summary (internalHash cols)
                  ⟨"", some (internalHash cols), internalAmount cols, 1, ts, ts⟩,
                addDaily st.daily (isoDateKey ts) (internalAmount cols)⟩ := by
  by_cases h1 : jsTrim line = ""
  · simp [flushStep, internalRowOf, h1]
  · by_cases h2 : (splitOnChar ',' (cleanLine line)).length < 11
    · simp [flushStep, internalRowOf, h1, h2]
    · simp [flushStep, internalRowOf, internalHash, internalAmount, h1, h2]

/-- A successful internal pass appends, to the starting summary, one entry
per valid row (in row order), provided no hash repeats. -/
theorem flushRun_internal_append (lines : List String) :
    ∀ (st₀ st : AggState),
      flushRun .internal st₀ lines = some st →
      ((st₀.summary.map (fun p => p.1)) ++ (internalRows lines).map internalHash).Nodup →
      st.summary =
        st₀.summary ++ (internalRows lines).map (fun c => (internalHash c, internalEntry c)) := by
  induction lines with
  | nil =>
    intro st₀ st h _
    cases h
    simp [internalRows]
  | cons l ls ih =>
    intro st₀ st h hnd
    have hstep := flushStep_internal_char st₀ l
    cases hrow : internalRowOf l with
    | none =>
      rw [hrow] at hstep
      rw [flushRun, hstep] at h
      have hrows : internalRows (l :: ls) = internalRows ls := by
        simp [internalRows, List.filterMap_cons, hrow]
      rw [hrows] at hnd
      rw [hrows]
      exact ih st₀ st h hnd
    | some cols =>
      rw [hrow] at hstep
      dsimp only at hstep
      cases hd : jsDateMs (stripQuotes (cols.getD 3 "")) with
      | none =>
        rw [hd] at hstep
        rw [flushRun, hstep] at h
        cases h
      | some ts =>
        rw [hd] at hstep
        rw [flushRun, hstep] at h
        have hrows : internalRows (l :: ls) = cols :: internalRows ls := by
          simp [internalRows, List.filterMap_cons, hrow]
        rw [hrows] at hnd
        simp only [List.map_cons] at hnd
        have hfresh : lookupKV st₀.summary (internalHash cols) = none := by
          rw [lookupKV_eq_none_iff]
          intro hmem
          rcases List.nodup_append.mp hnd with ⟨-, -, hdisj⟩
          exact hdisj hmem (List.mem_cons_self _ _)
        have hentry : internalEntry cols =
            ⟨"", some (internalHash cols), internalAmount cols, 1, ts, ts⟩ := by
          unfold internalEntry
          rw [hd]
          rfl
        have hsum : setSummary st₀.summary (internalHash cols)
              ⟨"", some (internalHash cols), internalAmount cols, 1, ts, ts⟩ =
            st₀.summary ++ [(internalHash cols, internalEntry cols)] := by
          rw [setSummary_of_none _ _ _ hfresh, hentry]
        have hnd' : (((st₀.summary ++ [(internalHash cols, internalEntry cols)]).map
              (fun p => p.1)) ++ (internalRows ls).map internalHash).Nodup := by
          have he : (st₀.summary ++ [(internalHash cols, internalEntry cols)]).map
                (fun p => p.1) ++ (internalRows ls).map internalHash =
              st₀.summary.map (fun p => p.1) ++
                (internalHash cols :: (internalRows ls).map internalHash) := by
            simp
          rw [he]
          exact hnd
        have hih := ih ⟨setSummary st₀.summary (internalHash cols)
              ⟨"", some (internalHash cols), internalAmount cols, 1, ts, ts⟩,
            addDaily st₀.daily (isoDateKey ts) (internalAmount cols)⟩ st h
          (by
            show ((setSummary st₀.summary (internalHash cols)
              ⟨"", some (internalHash cols), internalAmount cols, 1, ts, ts⟩).map
                (fun p => p.1) ++ (internalRows ls).map internalHash).Nodup
            rw [hsum]
            exact hnd')
        rw [hih]
        show (setSummary st₀.summary (internalHash cols)
            ⟨"", some (internalHash cols), internalAmount cols, 1, ts, ts⟩) ++ _ = _
        rw [hsum, hrows]
        simp

/-- C4 (amended): a successful internal pass whose valid rows carry pairwise
distinct hashes produces exactly one summary entry per valid row, keyed by
the row's hash and built from that row alone (`count = 1`); in particular
the number of entries equals the number of valid rows.  (When hashes repeat,
a later row overwrites the earlier entry — see the counterexample.) -/
theorem C4_internal_one_entry_per_row (lines : List String) (st : AggState)
    (h : flushLines .internal lines = some st)
    (hnd : ((internalRows lines).map internalHash).Nodup) :
    st.summary = (internalRows lines).map (fun c => (internalHash c, internalEntry c)) ∧
    st.summary.length = (internalRows lines).length := by
  have hmain := flushRun_internal_append lines ⟨[], []⟩ st h (by simpa using hnd)
  simp only [List.nil_append] at hmain
  refine ⟨hmain, ?_⟩
  rw [hmain, List.length_map]

/-- Counterexample for C4 as stated: two valid rows sharing the hash `H1`
produce a single summary entry, not two. -/
theorem C4_counterexample :
    (flushSummary .internal internalCsvDup).map List.length = some 1 ∧
    (internalRows ((splitOnChar '\n' internalCsvDup).drop 1)).length = 2 :=
  ⟨by decide, by decide⟩

/-- Witness for C4 (amended) on a two-row internal CSV with distinct hashes:
the summary is exactly the two per-row entries. -/
theorem C4_internal_one_entry_per_row_witness :
    flushLines .internal ((splitOnChar '\n' internalCsvNeg).drop 1) =
      some ⟨[("H1", ⟨"", some "H1", 5, 1, 1704067200000, 1704067200000⟩),
             ("H2", ⟨"", some "H2", -3, 1, 1704153600000, 1704153600000⟩)],
            [("2024-01-01".data, 5), ("2024-01-02".data, -3)]⟩ ∧
    ((internalRows ((splitOnChar '\n' internalCsvNeg).drop 1)).map internalHash).Nodup ∧
    (⟨[("H1", ⟨"", some "H1", 5, 1, 1704067200000, 1704067200000⟩),
       ("H2", ⟨"", some "H2", -3, 1, 1704153600000, 1704153600000⟩)],
      [("2024-01-01".data, 5), ("2024-01-02".data, -3)]⟩ : AggState).summary =
      (internalRows ((splitOnChar '\n' internalCsvNeg).drop 1)).map
        (fun c => (internalHash c, internalEntry c)) ∧
    (⟨[("H1", ⟨"", some "H1", 5, 1, 1704067200000, 1704067200000⟩),
       ("H2", ⟨"", some "H2", -3, 1, 1704153600000, 1704153600000⟩)],
      [("2024-01-01".data, 5), ("2024-01-02".data, -3)]⟩ : AggState).summary.length =
      (internalRows ((splitOnChar '\n' internalCsvNeg).drop 1)).length := by
  have h1 : flushLines .internal ((splitOnChar '\n' internalCsvNeg).drop 1) =
      some ⟨[("H1", ⟨"", some "H1", 5, 1, 1704067200000, 1704067200000⟩),
             ("H2", ⟨"", some "H2", -3, 1, 1704153600000, 1704153600000⟩)],
            [("2024-01-01".data, 5), ("2024-01-02".data, -3)]⟩ := by
    decide
  have h2 : ((internalRows ((splitOnChar '\n' internalCsvNeg).drop 1)).map internalHash).Nodup := by
    decide
  have h3 := C4_internal_one_entry_per_row _ _ h1 h2
  exact ⟨h1, h2, h3.1, h3.2⟩

/-! ## C5: the send/receive aggregation invariant -/

theorem processTransaction_eq (fromA toA : String) (amount : ℚ) (ts : ℤ)
    (st : AggState) :
    processTransaction fromA toA amount ts st =
      applyContrib st (some (if fromA = TARGET_ADDRESS then toA else fromA, amount, ts)) := by
  unfold processTransaction applyContrib updTxn
  cases h : lookupKV st.summary (if fromA = TARGET_ADDRESS then toA else fromA) <;>
    simp [h, Option.getD]

theorem lineContribution_pos (ty : TxType) (line : String) (c : String × ℚ × ℤ)
    (h : lineContribution ty line = some c) : 0 < c.2.1 := by
  simp only [lineContribution] at h
  split at h
  · cases h
  · split at h
    · cases h
    · split at h
      · next hg =>
        rw [Option.map_eq_some'] at h
        obtain ⟨ts, -, hc⟩ := h
        subst hc
        rcases hg with hg | hg
        · exact hg.2.2
        · exact hg.2.2
      · cases h

theorem flushStep_sendrecv_cases (ty : TxType) (hty : ty = .send ∨ ty = .receive)
    (st : AggState) (line : String) :
    flushStep ty st line = some (applyContrib st (lineContribution ty line)) ∨
    (flushStep ty st line = none ∧
     jsDateMs (stripQuotes ((splitOnChar ',' (cleanLine line)).getD 3 "")) = none) := by
  have hni : ¬ (ty = .internal) := by rcases hty with rfl | rfl <;> simp
  simp only [flushStep, lineContribution]
  by_cases h1 : jsTrim line = ""
  · left
    simp only [if_pos h1]
    rfl
  · by_cases h2 : (splitOnChar ',' (cleanLine line)).length < 15
    · left
      simp only [if_neg h1, if_neg hni, if_pos h2]
      rfl
    · by_cases hg1 : ty = .send ∧
          jsToLower (stripQuotes ((splitOnChar ',' (cleanLine line)).getD 4 "")) =
            TARGET_ADDRESS ∧
          rowAmount (stripQuotes ((splitOnChar ',' (cleanLine line)).getD 7 ""))
            (stripQuotes ((splitOnChar ',' (cleanLine line)).getD 8 "")) > 0
      · cases hd : jsDateMs (stripQuotes ((splitOnChar ',' (cleanLine line)).getD 3 "")) with
        | none =>
          right
          refine ⟨?_, rfl⟩
          simp only [if_neg h1, if_neg hni, if_neg h2, if_pos hg1]
        | some ts =>
          left
          simp only [if_neg h1, if_neg hni, if_neg h2, if_pos hg1, if_pos (Or.inl hg1), hd]
          dsimp only [Option.map]
          rw [processTransaction_eq]
      · by_cases hg2 : ty = .receive ∧
            jsToLower (stripQuotes ((splitOnChar ',' (cleanLine line)).getD 5 "")) =
              TARGET_ADDRESS ∧
            rowAmount (stripQuotes ((splitOnChar ',' (cleanLine line)).getD 7 ""))
              (stripQuotes ((splitOnChar ',' (cleanLine line)).getD 8 "")) > 0
        · cases hd : jsDateMs (stripQuotes ((splitOnChar ',' (cleanLine line)).getD 3 "")) with
          | none =>
            right
            refine ⟨?_, rfl⟩
            simp only [if_neg h1, if_neg hni, if_neg h2, if_neg hg1, if_pos hg2]
          | some ts =>
            left
            simp only [if_neg h1, if_neg hni, if_neg h2, if_neg hg1, if_pos hg2,
              if_pos (Or.inr hg2), hd]
            dsimp only [Option.map]
            rw [processTransaction_eq]
        · left
          have hor : ¬ ((ty = TxType.send ∧
              jsToLower (stripQuotes ((splitOnChar ',' (cleanLine line)).getD 4 "")) =
                TARGET_ADDRESS ∧
              rowAmount (stripQuotes ((splitOnChar ',' (cleanLine line)).getD 7 ""))
                (stripQuotes ((splitOnChar ',' (cleanLine line)).getD 8 "")) > 0) ∨
            (ty = TxType.receive ∧
              jsToLower (stripQuotes ((splitOnChar ',' (cleanLine line)).getD 5 "")) =
                TARGET_ADDRESS ∧
              rowAmount (stripQuotes ((splitOnChar ',' (cleanLine line)).getD 7 ""))
                (stripQuotes ((splitOnChar ',' (cleanLine line)).getD 8 "")) > 0)) := by
            rintro (hx | hx)
            · exact hg1 hx
            · exact hg2 hx
          simp only [if_neg h1, if_neg hni, if_neg h2, if_neg hg1, if_neg hg2, if_neg hor]
          rfl

theorem flushStep_sendrecv_char (ty : TxType) (hty : ty = .send ∨ ty = .receive)
    (st : AggState) (line : String) (st' : AggState)
    (h : flushStep ty st line = some st') :
    st' = applyContrib st (lineContribution ty line) := by
  rcases flushStep_sendrecv_cases ty hty st line with hc | ⟨hc, -⟩
  · rw [h] at hc
    exact Option.some.inj hc
  · rw [h] at hc
    cases hc

theorem contribsFor_nil (ty : TxType) (key : String) : contribsFor ty [] key = [] := rfl

theorem contribsFor_cons_none (ty : TxType) (l : String) (ls : List String) (key : String)
    (h : lineContribution ty l = none) :
    contribsFor ty (l :: ls) key = contribsFor ty ls key := by
  simp [contribsFor, List.filterMap_cons, h]

theorem contribsFor_cons_some (ty : TxType) (l : String) (ls : List String) (key : String)
    (c : String × ℚ × ℤ) (h : lineContribution ty l = some c) :
    contribsFor ty (l :: ls) key =
      (if c.1 = key then [c.2] else []) ++ contribsFor ty ls key := by
  by_cases hk : c.1 = key
  · simp [contribsFor, List.filterMap_cons, h, hk]
  · simp [contribsFor, List.filterMap_cons, h, hk]

theorem contribsFor_append (ty : TxType) (l₁ l₂ : List String) (key : String) :
    contribsFor ty (l₁ ++ l₂) key = contribsFor ty l₁ key ++ contribsFor ty l₂ key := by
  simp [contribsFor, List.filterMap_append, List.filter_append]

theorem contribsFor_pos (ty : TxType) (lines : List String) (key : String) :
    ∀ c ∈ contribsFor ty lines key, 0 < c.1 := by
  intro c hc
  simp only [contribsFor, List.mem_map, List.mem_filter, List.mem_filterMap] at hc
  obtain ⟨c', ⟨⟨l, -, hlc⟩, -⟩, rfl⟩ := hc
  exact lineContribution_pos ty l c' hlc

/-- During a send/receive pass, each key's summary entry is the sequential
fold of the key's contributions over its starting value. -/
theorem flushRun_sendrecv_lookup (ty : TxType) (hty : ty = .send ∨ ty = .receive) :
    ∀ (lines : List String) (st₀ st : AggState) (key : String),
      flushRun ty st₀ lines = some st →
      lookupKV st.summary key =
        (contribsFor ty lines key).foldl (fun a c => some (updTxn key a c))
          (lookupKV st₀.summary key) := by
  intro lines
  induction lines with
  | nil =>
    intro st₀ st key h
    cases h
    rfl
  | cons l ls ih =>
    intro st₀ st key h
    rw [flushRun] at h
    cases hs : flushStep ty st₀ l with
    | none => rw [hs] at h; cases h
    | some st₁ =>
      rw [hs] at h
      have hst₁ := flushStep_sendrecv_char ty hty st₀ l st₁ hs
      subst hst₁
      cases hc : lineContribution ty l with
      | none =>
        rw [hc] at h
        rw [contribsFor_cons_none ty l ls key hc]
        exact ih st₀ st key h
      | some c =>
        rw [hc] at h
        rw [ih _ st key h, contribsFor_cons_some ty l ls key c hc]
        by_cases hk : c.1 = key
        · subst hk
          rw [if_pos rfl, List.foldl_append]
          have hlook : lookupKV (applyContrib st₀ (some c)).summary c.1 =
              some (updTxn c.1 (lookupKV st₀.summary c.1) c.2) := by
            simp only [applyContrib]
            exact lookupKV_setSummary_self _ _ _
          rw [hlook]
          rfl
        · rw [if_neg hk]
          have hlook : lookupKV (applyContrib st₀ (some c)).summary key =
              lookupKV st₀.summary key := by
            simp only [applyContrib]
            exact lookupKV_setSummary_ne _ _ _ _ (fun e => hk e.symm)
          rw [hlook]
          rfl

theorem flushLines_sendrecv_lookup (ty : TxType) (hty : ty = .send ∨ ty = .receive)
    (lines : List String) (st : AggState) (key : String)
    (h : flushLines ty lines = some st) :
    lookupKV st.summary key = aggTxn key (contribsFor ty lines key) :=
  flushRun_sendrecv_lookup ty hty lines ⟨[], []⟩ st key h

/-! ### Closed forms for the sequential aggregation of one key -/

theorem updTxn_some (key : String) (t : Txn) (c : ℚ × ℤ) :
    updTxn key (some t) c =
      { t with amount := t.amount + c.1, count := t.count + 1,
               firstDate := min t.firstDate c.2, lastDate := max t.lastDate c.2 } := rfl

theorem updTxn_none (key : String) (c : ℚ × ℤ) :
    updTxn key none c = ⟨key, none, c.1, 1, c.2, c.2⟩ := by
  simp [updTxn]

theorem foldl_updTxn_some (key : String) (cs : List (ℚ × ℤ)) (t : Txn) :
    cs.foldl (fun a c => some (updTxn key a c)) (some t) =
      some (cs.foldl (fun a c => updTxn key (some a) c) t) := by
  induction cs generalizing t with
  | nil => rfl
  | cons c cs ih => exact ih (updTxn key (some t) c)

theorem foldl_updTxn_amount (key : String) (cs : List (ℚ × ℤ)) (t : Txn) :
    (cs.foldl (fun a c => updTxn key (some a) c) t).amount =
      t.amount + (cs.map (fun c => c.1)).sum := by
  induction cs generalizing t with
  | nil => simp
  | cons c cs ih =>
    rw [List.foldl_cons, ih, updTxn_some]
    simp [add_assoc]

theorem foldl_updTxn_count (key : String) (cs : List (ℚ × ℤ)) (t : Txn) :
    (cs.foldl (fun a c => updTxn key (some a) c) t).count = t.count + cs.length := by
  induction cs generalizing t with
  | nil => simp
  | cons c cs ih =>
    rw [List.foldl_cons, ih, updTxn_some]
    simp only [List.length_cons]
    omega

theorem foldl_updTxn_firstDate (key : String) (cs : List (ℚ × ℤ)) (t : Txn) :
    (cs.foldl (fun a c => updTxn key (some a) c) t).firstDate =
      (cs.map (fun c => c.2)).foldl min t.firstDate := by
  induction cs generalizing t with
  | nil => rfl
  | cons c cs ih =>
    rw [List.foldl_cons, ih, updTxn_some, List.map_cons, List.foldl_cons]

theorem foldl_updTxn_lastDate (key : String) (cs : List (ℚ × ℤ)) (t : Txn) :
    (cs.foldl (fun a c => updTxn key (some a) c) t).lastDate =
      (cs.map (fun c => c.2)).foldl max t.lastDate := by
  induction cs generalizing t with
  | nil => rfl
  | cons c cs ih =>
    rw [List.foldl_cons, ih, updTxn_some, List.map_cons, List.foldl_cons]

theorem foldl_min_le_init (l : List ℤ) (a : ℤ) : l.foldl min a ≤ a := by
  induction l generalizing a with
  | nil => exact le_refl a
  | cons x l ih => exact le_trans (ih (min a x)) (min_le_left a x)

theorem foldl_min_le_mem (l : List ℤ) (a : ℤ) : ∀ x ∈ l, l.foldl min a ≤ x := by
  induction l generalizing a with
  | nil => intro x hx; cases hx
  | cons y l ih =>
    intro x hx
    rw [List.foldl_cons]
    rcases List.mem_cons.mp hx with rfl | hx
    · exact le_trans (foldl_min_le_init l (min a x)) (min_le_right a x)
    · exact ih (min a y) x hx

theorem foldl_min_mem (l : List ℤ) (a : ℤ) : l.foldl min a ∈ a :: l := by
  induction l generalizing a with
  | nil => exact List.mem_cons_self a []
  | cons x l ih =>
    rw [List.foldl_cons]
    rcases le_total a x with hax | hxa
    · rw [min_eq_left hax]
      rcases List.mem_cons.mp (ih a) with h | h
      · rw [h]; exact List.mem_cons_self a (x :: l)
      · exact List.mem_cons_of_mem a (List.mem_cons_of_mem x h)
    · rw [min_eq_right hxa]
      exact List.mem_cons_of_mem a (ih x)

theorem le_foldl_max_init (l : List ℤ) (a : ℤ) : a ≤ l.foldl max a := by
  induction l generalizing a with
  | nil => exact le_refl a
  | cons x l ih => exact le_trans (le_max_left a x) (ih (max a x))

theorem mem_le_foldl_max (l : List ℤ) (a : ℤ) : ∀ x ∈ l, x ≤ l.foldl max a := by
  induction l generalizing a with
  | nil => intro x hx; cases hx
  | cons y l ih =>
    intro x hx
    rw [List.foldl_cons]
    rcases List.mem_cons.mp hx with rfl | hx
    · exact le_trans (le_max_right a x) (le_foldl_max_init l (max a x))
    · exact ih (max a y) x hx

theorem foldl_max_mem (l : List ℤ) (a : ℤ) : l.foldl max a ∈ a :: l := by
  induction l generalizing a with
  | nil => exact List.mem_cons_self a []
  | cons x l ih =>
    rw [List.foldl_cons]
    rcases le_total x a with hxa | hax
    · rw [max_eq_left hxa]
      rcases List.mem_cons.mp (ih a) with h | h
      · rw [h]; exact List.mem_cons_self a (x :: l)
      · exact List.mem_cons_of_mem a (List.mem_cons_of_mem x h)
    · rw [max_eq_right hax]
      exact List.mem_cons_of_mem a (ih x)

theorem aggTxn_cons (key : String) (c : ℚ × ℤ) (cs : List (ℚ × ℤ)) :
    aggTxn key (c :: cs) =
      some (cs.foldl (fun a c => updTxn key (some a) c) ⟨key, none, c.1, 1, c.2, c.2⟩) := by
  show cs.foldl (fun a c => some (updTxn key a c)) (some (updTxn key none c)) = _
  rw [foldl_updTxn_some, updTxn_none]

theorem aggTxn_append_some (key : String) (cs₁ cs₂ : List (ℚ × ℤ)) (t : Txn)
    (h : aggTxn key cs₁ = some t) :
    aggTxn key (cs₁ ++ cs₂) =
      some (cs₂.foldl (fun a c => updTxn key (some a) c) t) := by
  unfold aggTxn at h ⊢
  rw [List.foldl_append, h, foldl_updTxn_some]

/-- C5 (amended): during a send/receive pass (but not an internal pass, where
a repeated transaction hash overwrites its entry), each summary entry only
grows: extending the processed rows never decreases a key's amount or count,
never raises its firstDate and never lowers its lastDate; and at every
successful point a key's amount is the sum, its count the number, and its
firstDate/lastDate the attained min/max of the timestamps of exactly the
contributions that key has received. -/
theorem C5_summary_monotone :
    (∀ (ty : TxType), ty = .send ∨ ty = .receive →
      ∀ (lines more : List String) (st₁ st₂ : AggState) (key : String) (t₁ t₂ : Txn),
        flushLines ty lines = some st₁ →
        flushLines ty (lines ++ more) = some st₂ →
        lookupKV st₁.summary key = some t₁ →
        lookupKV st₂.summary key = some t₂ →
        t₁.amount ≤ t₂.amount ∧ t₁.count ≤ t₂.count ∧
        t₂.firstDate ≤ t₁.firstDate ∧ t₁.lastDate ≤ t₂.lastDate) ∧
    (∀ (ty : TxType), ty = .send ∨ ty = .receive →
      ∀ (lines : List String) (st : AggState) (key : String) (t : Txn),
        flushLines ty lines = some st →
        lookupKV st.summary key = some t →
        t.amount = ((contribsFor ty lines key).map (fun c => c.1)).sum ∧
        t.count = (contribsFor ty lines key).length ∧
        t.firstDate ∈ (contribsFor ty lines key).map (fun c => c.2) ∧
        (∀ c ∈ contribsFor ty lines key, t.firstDate ≤ c.2) ∧
        t.lastDate ∈ (contribsFor ty lines key).map (fun c => c.2) ∧
        (∀ c ∈ contribsFor ty lines key, c.2 ≤ t.lastDate)) := by
  constructor
  · intro ty hty lines more st₁ st₂ key t₁ t₂ h₁ h₂ hk₁ hk₂
    have ha₁ : aggTxn key (contribsFor ty lines key) = some t₁ :=
      (flushLines_sendrecv_lookup ty hty lines st₁ key h₁).symm.trans hk₁
    have ha₂ : aggTxn key (contribsFor ty lines key ++ contribsFor ty more key) =
        some t₂ := by
      rw [← contribsFor_append]
      exact (flushLines_sendrecv_lookup ty hty (lines ++ more) st₂ key h₂).symm.trans hk₂
    rw [aggTxn_append_some key _ _ t₁ ha₁] at ha₂
    have ht₂ : t₂ =
        (contribsFor ty more key).foldl (fun a c => updTxn key (some a) c) t₁ :=
      (Option.some.inj ha₂).symm
    refine ⟨?_, ?_, ?_, ?_⟩
    · rw [ht₂, foldl_updTxn_amount]
      have hnn : 0 ≤ ((contribsFor ty more key).map (fun c => c.1)).sum := by
        apply List.sum_nonneg
        intro x hx
        obtain ⟨c, hc, rfl⟩ := List.mem_map.mp hx
        exact le_of_lt (contribsFor_pos ty more key c hc)
      exact le_add_of_nonneg_right hnn
    · rw [ht₂, foldl_updTxn_count]
      exact Nat.le_add_right _ _
    · rw [ht₂, foldl_updTxn_firstDate]
      exact foldl_min_le_init _ _
    · rw [ht₂, foldl_updTxn_lastDate]
      exact le_foldl_max_init _ _
  · intro ty hty lines st key t h hk
    have ha : aggTxn key (contribsFor ty lines key) = some t :=
      (flushLines_sendrecv_lookup ty hty lines st key h).symm.trans hk
    cases hcs : contribsFor ty lines key with
    | nil => rw [hcs] at ha; cases ha
    | cons c cs =>
      rw [hcs, aggTxn_cons] at ha
      have ht : t =
          cs.foldl (fun a c => updTxn key (some a) c) ⟨key, none, c.1, 1, c.2, c.2⟩ :=
        (Option.some.inj ha).symm
      refine ⟨?_, ?_, ?_, ?_, ?_, ?_⟩
      · rw [ht, foldl_updTxn_amount]
        simp
      · rw [ht, foldl_updTxn_count]
        simp [Nat.add_comm]
      · rw [ht, foldl_updTxn_firstDate, List.map_cons]
        exact foldl_min_mem _ _
      · intro c' hc'
        rw [ht, foldl_updTxn_firstDate]
        rcases List.mem_cons.mp hc' with rfl | hc'
        · exact foldl_min_le_init _ _
        · exact foldl_min_le_mem _ _ c'.2 (List.mem_map_of_mem _ hc')
      · rw [ht, foldl_updTxn_lastDate, List.map_cons]
        exact foldl_max_mem _ _
      · intro c' hc'
        rw [ht, foldl_updTxn_lastDate]
        rcases List.mem_cons.mp hc' with rfl | hc'
        · exact le_foldl_max_init _ _
        · exact mem_le_foldl_max _ _ c'.2 (List.mem_map_of_mem _ hc')

/-- Counterexample for C5 as stated: in an internal pass the two rows share
the hash H1, so the second row overwrites the first and the entry amount for
H1 drops from 5 to 3 while rows are being processed. -/
theorem C5_counterexample :
    ((flushLines .internal [internalRowDupA]).bind
        (fun st => lookupKV st.summary "H1")).map Txn.amount = some 5 ∧
    ((flushLines .internal [internalRowDupA, internalRowDupB]).bind
        (fun st => lookupKV st.summary "H1")).map Txn.amount = some 3 ∧
    ¬ ((5 : ℚ) ≤ 3) := by
  refine ⟨by decide, by decide, by decide⟩

/-- Witness for C5 (amended), part 1: in a send pass, appending `sendRowB`
after `sendRowA` grows the 0xaaa entry from amount 10 / count 1 to
amount 17 / count 2 while widening its date bounds. -/
theorem C5_summary_monotone_witness :
    (flushLines .send [sendRowA] =
        some ⟨[("0xaaa", ⟨"0xaaa", none, 10, 1, 1704153600000, 1704153600000⟩)],
              [("2024-01-02".data, 10)]⟩ ∧
     flushLines .send ([sendRowA] ++ [sendRowB]) =
        some ⟨[("0xaaa", ⟨"0xaaa", none, 17, 2, 1704153600000, 1704240000000⟩)],
              [("2024-01-02".data, 10), ("2024-01-03".data, 7)]⟩ ∧
     lookupKV [("0xaaa", (⟨"0xaaa", none, 10, 1, 1704153600000, 1704153600000⟩ : Txn))]
        "0xaaa" = some ⟨"0xaaa", none, 10, 1, 1704153600000, 1704153600000⟩ ∧
     lookupKV [("0xaaa", (⟨"0xaaa", none, 17, 2, 1704153600000, 1704240000000⟩ : Txn))]
        "0xaaa" = some ⟨"0xaaa", none, 17, 2, 1704153600000, 1704240000000⟩) ∧
    ((10 : ℚ) ≤ 17 ∧ (1 : ℕ) ≤ 2 ∧
     (1704153600000 : ℤ) ≤ 1704153600000 ∧ (1704153600000 : ℤ) ≤ 1704240000000) :=
  ⟨⟨by decide, by decide, by decide, by decide⟩,
   C5_summary_monotone.1 .send (Or.inl rfl) [sendRowA] [sendRowB]
     ⟨[("0xaaa", ⟨"0xaaa", none, 10, 1, 1704153600000, 1704153600000⟩)],
       [("2024-01-02".data, 10)]⟩
     ⟨[("0xaaa", ⟨"0xaaa", none, 17, 2, 1704153600000, 1704240000000⟩)],
       [("2024-01-02".data, 10), ("2024-01-03".data, 7)]⟩
     "0xaaa"
     ⟨"0xaaa", none, 10, 1, 1704153600000, 1704153600000⟩
     ⟨"0xaaa", none, 17, 2, 1704153600000, 1704240000000⟩
     (by decide) (by decide) (by decide) (by decide)⟩

/-- C1 (amended): the amount of a send/receive row is the first candidate
column (7 then 8) that parses to a non-NaN **nonzero** float — not the first
positive one — and 0 when neither parses nonzero; a valid-length row with a
parsable date contributes exactly when the direction-appropriate lowercased
address equals the target and that amount is strictly positive, keyed by the
other party; the spec scenario row (columns 7/8 holding 100.5 and 200.3,
from equal to the target, send mode) yields exactly one group keyed by the
lowercased `to` with amount 100.5 and count 1. -/
theorem C1_send_receive_amount :
    (∀ c7 c8 : String, rowAmount c7 c8 = firstNonzeroCandidate c7 c8) ∧
    (∀ (ty : TxType) (line : String) (ts : ℤ),
        ty = .send ∨ ty = .receive →
        ¬ jsTrim line = "" →
        ¬ (splitOnChar ',' (cleanLine line)).length < 15 →
        jsDateMs (stripQuotes ((splitOnChar ',' (cleanLine line)).getD 3 "")) = some ts →
        lineContribution ty line =
          (if (ty = .send ∧
                jsToLower (stripQuotes ((splitOnChar ',' (cleanLine line)).getD 4 "")) =
                  TARGET_ADDRESS ∧
                rowAmount (stripQuotes ((splitOnChar ',' (cleanLine line)).getD 7 ""))
                  (stripQuotes ((splitOnChar ',' (cleanLine line)).getD 8 "")) > 0) ∨
              (ty = .receive ∧
                jsToLower (stripQuotes ((splitOnChar ',' (cleanLine line)).getD 5 "")) =
                  TARGET_ADDRESS ∧
                rowAmount (stripQuotes ((splitOnChar ',' (cleanLine line)).getD 7 ""))
                  (stripQuotes ((splitOnChar ',' (cleanLine line)).getD 8 "")) > 0)
           then some
              (if jsToLower (stripQuotes ((splitOnChar ',' (cleanLine line)).getD 4 "")) =
                  TARGET_ADDRESS
               then jsToLower (stripQuotes ((splitOnChar ',' (cleanLine line)).getD 5 ""))
               else jsToLower (stripQuotes ((splitOnChar ',' (cleanLine line)).getD 4 "")),
               rowAmount (stripQuotes ((splitOnChar ',' (cleanLine line)).getD 7 ""))
                 (stripQuotes ((splitOnChar ',' (cleanLine line)).getD 8 "")), ts)
           else none)) ∧
    (∀ (ty : TxType) (st : AggState) (line : String) (ts : ℤ),
        ty = .send ∨ ty = .receive →
        jsDateMs (stripQuotes ((splitOnChar ',' (cleanLine line)).getD 3 "")) = some ts →
        flushStep ty st line = some (applyContrib st (lineContribution ty line))) ∧
    flushLines .send [sendRowScenario] =
      some ⟨[("0xaaa", ⟨"0xaaa", none, 201/2, 1, 1704153600000, 1704153600000⟩)],
            [("2024-01-02".data, 201/2)]⟩ := by
  refine ⟨?_, ?_, ?_, by decide⟩
  · intro c7 c8
    unfold rowAmount firstNonzeroCandidate jsOrNum
    cases h7 : jsParseFloat c7 with
    | none =>
      cases h8 : jsParseFloat c8 with
      | none => rfl
      | some r => by_cases hr : r = 0 <;> simp [hr]
    | some q =>
      by_cases hq : q = 0
      · cases h8 : jsParseFloat c8 with
        | none => simp [hq]
        | some r => by_cases hr : r = 0 <;> simp [hq, hr]
      · simp [hq]
  · intro ty line ts hty hnb hlen hdate
    simp only [lineContribution, if_neg hnb, if_neg hlen]
    split
    · rw [hdate]
      rfl
    · rfl
  · intro ty st line ts hty hdate
    rcases flushStep_sendrecv_cases ty hty st line with h | ⟨-, hnone⟩
    · exact h
    · rw [hdate] at hnone
      cases hnone

/-- Counterexample for C1 as stated: in `sendRowNeg` column 7 parses to the
negative float -5 and column 8 to 100, so under the claimed rule the amount
would be 100 (first positive candidate) and the row would be included; the
code takes the first nonzero candidate, -5, and the row contributes
nothing. -/
theorem C1_counterexample :
    ¬ (splitOnChar ',' (cleanLine sendRowNeg)).length < 15 ∧
    jsToLower (stripQuotes ((splitOnChar ',' (cleanLine sendRowNeg)).getD 4 "")) =
      TARGET_ADDRESS ∧
    firstPositiveCandidate (stripQuotes ((splitOnChar ',' (cleanLine sendRowNeg)).getD 7 ""))
      (stripQuotes ((splitOnChar ',' (cleanLine sendRowNeg)).getD 8 "")) = some 100 ∧
    rowAmount (stripQuotes ((splitOnChar ',' (cleanLine sendRowNeg)).getD 7 ""))
      (stripQuotes ((splitOnChar ',' (cleanLine sendRowNeg)).getD 8 "")) = -5 ∧
    flushLines .send [sendRowNeg] = some ⟨[], []⟩ :=
  ⟨by decide, by decide, by decide, by decide, by decide⟩

/-- Witness for C1 (amended): on the scenario row the contribution equation
instantiates to a single inclusion keyed by 0xaaa with amount 100.5. -/
theorem C1_send_receive_amount_witness :
    (¬ jsTrim sendRowScenario = "" ∧
     ¬ (splitOnChar ',' (cleanLine sendRowScenario)).length < 15 ∧
     jsDateMs (stripQuotes ((splitOnChar ',' (cleanLine sendRowScenario)).getD 3 "")) =
       some 1704153600000) ∧
    lineContribution .send sendRowScenario = some ("0xaaa", 201/2, 1704153600000) :=
  ⟨⟨by decide, by decide, by decide⟩, by
    rw [C1_send_receive_amount.2.1 .send sendRowScenario 1704153600000 (Or.inl rfl)
      (by decide) (by decide) (by decide)]
    decide⟩

theorem lookupKV_addDaily_self_isSome (d : List (List Char × ℚ)) (k : List Char)
    (a : ℚ) : (lookupKV (addDaily d k a) k).isSome = true := by
  unfold addDaily
  cases h : lookupKV d k with
  | some v =>
    rw [lookupKV_map_replace, h]
    rfl
  | none =>
    rw [lookupKV_append_right [(k, a)] h]
    simp [lookupKV]

/-- C10: an internal row of valid length whose amount column is empty,
unparseable or zero is still included — the step records a summary entry for
its hash with amount 0 and count 1 and touches its day bucket — whereas in a
send/receive pass any row whose amount is not strictly positive leaves the
state unchanged. -/
theorem C10_internal_zero_amount :
    (∀ (st : AggState) (line : String) (cols : List String) (ts : ℤ),
        internalRowOf line = some cols →
        internalAmount cols = 0 →
        jsDateMs (stripQuotes (cols.getD 3 "")) = some ts →
        flushStep .internal st line =
          some ⟨setSummary st.summary (internalHash cols)
                  ⟨"", some (internalHash cols), 0, 1, ts, ts⟩,
                addDaily st.daily (isoDateKey ts) 0⟩ ∧
        lookupKV (setSummary st.summary (internalHash cols)
            ⟨"", some (internalHash cols), 0, 1, ts, ts⟩) (internalHash cols) =
          some ⟨"", some (internalHash cols), 0, 1, ts, ts⟩ ∧
        (lookupKV (addDaily st.daily (isoDateKey ts) 0) (isoDateKey ts)).isSome = true) ∧
    (∀ (ty : TxType) (st : AggState) (line : String),
        ty = .send ∨ ty = .receive →
        ¬ 0 < rowAmount (stripQuotes ((splitOnChar ',' (cleanLine line)).getD 7 ""))
              (stripQuotes ((splitOnChar ',' (cleanLine line)).getD 8 "")) →
        flushStep ty st line = some st) := by
  constructor
  · intro st line cols ts hrow hamt hdate
    refine ⟨?_, lookupKV_setSummary_self _ _ _, lookupKV_addDaily_self_isSome _ _ _⟩
    rw [flushStep_internal_char, hrow]
    dsimp only
    rw [hdate, hamt]
  · intro ty st line hty hneg
    have hni : ¬ ty = .internal := by rcases hty with rfl | rfl <;> simp
    simp only [flushStep]
    by_cases h1 : jsTrim line = ""
    · rw [if_pos h1]
    · rw [if_neg h1, if_neg hni]
      by_cases h2 : (splitOnChar ',' (cleanLine line)).length < 15
      · rw [if_pos h2]
      · rw [if_neg h2, if_neg (fun hx => hneg hx.2.2), if_neg (fun hx => hneg hx.2.2)]

/-- Witness for C10: the zero-amount internal row `internalRowZero` produces
an entry for H9 with amount 0 and a day bucket, while the send row with the
nonpositive amount -5 leaves the state untouched. -/
theorem C10_internal_zero_amount_witness :
    (internalRowOf internalRowZero = some (splitOnChar ',' (cleanLine internalRowZero)) ∧
     internalAmount (splitOnChar ',' (cleanLine internalRowZero)) = 0 ∧
     jsDateMs (stripQuotes ((splitOnChar ',' (cleanLine internalRowZero)).getD 3 "")) =
       some 1704412800000 ∧
     ¬ 0 < rowAmount (stripQuotes ((splitOnChar ',' (cleanLine sendRowNeg)).getD 7 ""))
           (stripQuotes ((splitOnChar ',' (cleanLine sendRowNeg)).getD 8 ""))) ∧
    (flushStep .internal ⟨[], []⟩ internalRowZero =
        some ⟨setSummary [] (internalHash (splitOnChar ',' (cleanLine internalRowZero)))
                ⟨"", some (internalHash (splitOnChar ',' (cleanLine internalRowZero))),
                 0, 1, 1704412800000, 1704412800000⟩,
              addDaily [] (isoDateKey 1704412800000) 0⟩ ∧
     lookupKV (setSummary [] (internalHash (splitOnChar ',' (cleanLine internalRowZero)))
         ⟨"", some (internalHash (splitOnChar ',' (cleanLine internalRowZero))),
          0, 1, 1704412800000, 1704412800000⟩)
         (internalHash (splitOnChar ',' (cleanLine internalRowZero))) =
       some ⟨"", some (internalHash (splitOnChar ',' (cleanLine internalRowZero))),
             0, 1, 1704412800000, 1704412800000⟩ ∧
     (lookupKV (addDaily [] (isoDateKey 1704412800000) (0 : ℚ))
        (isoDateKey 1704412800000)).isSome = true) ∧
    flushStep .send ⟨[], []⟩ sendRowNeg = some ⟨[], []⟩ :=
  ⟨⟨by decide, by decide, by decide, by decide⟩,
   C10_internal_zero_amount.1 ⟨[], []⟩ internalRowZero
     (splitOnChar ',' (cleanLine internalRowZero)) 1704412800000
     (by decide) (by decide) (by decide),
   C10_internal_zero_amount.2 .send ⟨[], []⟩ sendRowNeg (Or.inl rfl) (by decide)⟩

end OA
